import Mathlib

/-!
Verification development for the pytype abstract interpreter core
(src/pytype/vm.py and src/pytype/convert.py).  Each section is a shallow
embedding of one group of source functions; the theorems at the end settle
the specification claims against these embeddings.
-/

namespace Pytype

/-- Abstract values as seen by the VM-level operations.  `Unsolvable`,
`Unknown` and `Empty` are the wildcard and sentinel singletons of the value
model; `InstanceOf c` is an instance whose class variable holds the single
class id `c`; `NoClass` stands for a value whose `cls` attribute is None. -/
inductive AVal where
| Unsolvable
| Unknown
| Empty
| InstanceOf (c : Nat)
| NoClass
deriving DecidableEq, Repr

/-- Modelled from the spec: membership in `abstract.AMBIGUOUS_OR_EMPTY`
(the class tuple lives in abstract.py, which is not part of the sources).
The spec lists the wildcard values, unsolvable and unknown, and the
nothing/empty sentinels as the ambiguous-or-empty values. -/
def isAmbiguousOrEmpty : AVal → Bool
| AVal.Unsolvable => true
| AVal.Unknown => true
| AVal.Empty => true
| _ => false

namespace Binop

/-- Environment for operator dispatch: the method resolution order of each
class id, and whether a class has a member with visible bindings at the
current node (models `attr in cls.members and cls.members[attr].Bindings(node)`
in `VirtualMachine._overrides`). -/
structure DispatchEnv where
  mro : Nat → List Nat
  hasAttr : Nat → String → Bool
  cls : AVal → List Nat

/-- The reversible binary operator names, from
`VirtualMachine.reversable_operators` in vm.py. -/
def reversable_operators : List String :=
  ["__add__", "__sub__", "__mul__",
   "__div__", "__truediv__", "__floordiv__",
   "__mod__", "__divmod__", "__pow__",
   "__lshift__", "__rshift__", "__and__", "__or__", "__xor__",
   "__matmul__"]

/-- Models `VirtualMachine.reverse_operator_name`: maps a reversible operator name
to its reflected name, and every other name to none. -/
def reverse_operator_name (name : String) : Option String :=
  if name ∈ reversable_operators then some ("__r" ++ name.drop 2) else none

/-- Models `VirtualMachine._yield_subclass_superclass_pairs`: all pairs of a value
from the subclass variable and a value from the superclass variable such
that the superclass occurs in the mro of the subclass. -/
def yield_subclass_superclass_pairs (env : DispatchEnv)
    (subs sups : List Nat) : List (Nat × Nat) :=
  subs.flatMap (fun sub =>
    (sups.filter (fun sup => sup ∈ env.mro sub)).map (fun sup => (sub, sup)))

/-- The inner mro walk of `VirtualMachine._overrides`: walk the subclass
mro, stopping at the superclass, and report whether some earlier class has
the attribute with visible bindings. -/
def overridesWalk (env : DispatchEnv) (attr : String) (sup : Nat) :
    List Nat → Bool
| [] => false
| c :: rest =>
    if c = sup then false
    else if env.hasAttr c attr then true
    else overridesWalk env attr sup rest

/-- Models `VirtualMachine._overrides`: whether some value of `subs` is a subclass
of some value of `sups` and overrides or newly defines `attr` strictly
below that superclass in its mro. -/
def overrides (env : DispatchEnv) (subs sups : List Nat)
    (attr : String) : Bool :=
  (yield_subclass_superclass_pairs env subs sups).any
    (fun p => overridesWalk env attr p.2 (env.mro p.1))

/-- One attempted magic-method call: left receiver, right argument, and the
attribute name to look up on the left receiver. -/
structure Attempt where
  left : AVal
  right : AVal
  attr : String
deriving DecidableEq, Repr

/-- Result shape of `VirtualMachine._call_binop_on_bindings`: either the
ambiguous short circuit, which returns a variable holding exactly the
listed values without attempting any method, or the ordered list of
method attempts. -/
inductive BinopDispatch where
| shortCircuit (result : List AVal)
| attempts (options : List Attempt)
deriving DecidableEq, Repr

/-- Models `VirtualMachine._call_binop_on_bindings`, dispatch part: computes the
short circuit or the ordered option list the source then iterates over.
Follows vm.py lines 770 to 788. -/
def call_binop_on_bindings (env : DispatchEnv) (name : String)
    (xval yval : AVal) : BinopDispatch :=
  match reverse_operator_name name with
  | some rname =>
      if isAmbiguousOrEmpty xval then
        BinopDispatch.shortCircuit [AVal.Unsolvable]
      else if overrides env (env.cls yval) (env.cls xval) rname then
        BinopDispatch.attempts
          [⟨yval, xval, rname⟩, ⟨xval, yval, name⟩]
      else
        BinopDispatch.attempts
          [⟨xval, yval, name⟩, ⟨yval, xval, rname⟩]
  | none => BinopDispatch.attempts [⟨xval, yval, name⟩]

/-- The first method attempt of a dispatch outcome, if any method is
attempted at all. -/
def firstAttempt : BinopDispatch → Option Attempt
| BinopDispatch.shortCircuit _ => none
| BinopDispatch.attempts options => options.head?

end Binop

namespace Framerun

/-- Reasons that end the processing of a basic block early; the values set
by `state.set_why` in vm.py. -/
inductive Why where
| ret
| exception
| yield_
| unsatisfiable
deriving DecidableEq, Repr

/-- Instructions of a straight-line block, reduced to the effects visible
to `run_frame`: `returnValue v` models `byte_RETURN_VALUE` (paste `v` into
the frame return variable and set why to return), `raiseErr` models an
instruction whose interpretation ends with reason exception, `nop` models
any instruction that transforms the state without ending the block. -/
inductive Instr where
| returnValue (v : AVal)
| raiseErr
| nop
deriving DecidableEq, Repr

/-- The per-block interpreter state: the current cfg node plus the reason,
if one has been set. -/
structure VMState where
  node : Nat
  why : Option Why
deriving DecidableEq, Repr

/-- One step of `run_instruction` as far as `run_frame` observes it: the
updated state and the bindings appended to the frame return variable. -/
def run_instruction (op : Instr) (st : VMState) (retVar : List AVal) :
    VMState × List AVal :=
  match op with
  | Instr.returnValue v => ({ st with why := some Why.ret }, retVar ++ [v])
  | Instr.raiseErr => ({ st with why := some Why.exception }, retVar)
  | Instr.nop => (st, retVar)

/-- The inner loop of `run_frame` over one block: interpret instructions
one at a time, stopping as soon as a reason is set. -/
def runBlock : List Instr → VMState → List AVal → VMState × List AVal
| [], st, retVar => (st, retVar)
| op :: ops, st, retVar =>
    let r := run_instruction op st retVar
    match r.1.why with
    | some _ => r
    | none => runBlock ops r.1 r.2

/-- The outer loop of `run_frame` over the ordered blocks.  A block with no
recorded incoming state is skipped; a block that ends with a reason
contributes its node to the collected return nodes; otherwise a fresh cfg
node is started (`state.forward_cfg_node`) and the state is registered at
the next block.  With the straight-line instruction set above, the states
map of the source degenerates to the optional state carried to the next
block. -/
def runBlocks : List (List Instr) → Option VMState → List Nat →
    List AVal → List Nat × List AVal
| [], _, returnNodes, retVar => (returnNodes, retVar)
| _ :: rest, none, returnNodes, retVar => runBlocks rest none returnNodes retVar
| b :: rest, some st, returnNodes, retVar =>
    let r := runBlock b st retVar
    match r.1.why with
    | some _ => runBlocks rest none (returnNodes ++ [r.1.node]) r.2
    | none => runBlocks rest (some { node := r.1.node + 1, why := none }) returnNodes r.2

/-- Models `VirtualMachine.join_cfg_nodes`: a single node is returned as is, and
several nodes are joined into a fresh node (modelled as the successor of
their maximum). -/
def join_cfg_nodes (nodes : List Nat) : Nat :=
  match nodes with
  | [n] => n
  | _ => (nodes.foldl Nat.max 0) + 1

/-- Result of running a frame: the collected return nodes, the bindings of
the frame return variable, and the exit node. -/
structure FrameResult where
  returnNodes : List Nat
  retVar : List AVal
  exitNode : Nat
deriving DecidableEq, Repr

/-- Models `VirtualMachine.run_frame` (vm.py lines 284 to 318): run all blocks,
then, if no return node was collected, give the return variable a single
unsolvable binding; otherwise join the return nodes into the exit node. -/
def run_frame (blocks : List (List Instr)) (entry : Nat) : FrameResult :=
  let r := runBlocks blocks (some { node := entry, why := none }) [] []
  if r.1.isEmpty then
    { returnNodes := r.1, retVar := r.2 ++ [AVal.Unsolvable],
      exitNode := entry }
  else
    { returnNodes := r.1, retVar := r.2,
      exitNode := join_cfg_nodes r.1 }

end Framerun

namespace Unpack

/-- Variables produced while unpacking, kept symbolic: `atom n` is a
pre-existing variable, `listOf vs` is `convert.build_list` applied to the
given content, `listOfType v` is `convert.build_list_of_type`,
`contentOf vs` is `convert.build_content` merging the given variables,
`nextResult` is the variable returned by calling `next` on the iterator,
`iterCall` is the result of calling `__iter__`, `legacyIter v` is the
synthetic `abstract.Iterator` wrapping the `__getitem__` result `v`,
`getitemResult` is the result of calling `__getitem__` with an integer,
`unsolvableVar` is `convert.create_new_unsolvable`, and `emptyVar` is the
empty sentinel variable. -/
inductive UVar where
| atom (n : Nat)
| listOf (content : List UVar)
| listOfType (v : UVar)
| contentOf (vs : List UVar)
| nextResult
| iterCall
| legacyIter (v : UVar)
| getitemResult
| unsolvableVar
| emptyVar

/-- A binding of the unpacked variable: either a literal tuple constant, a
literal list constant (both with their element variables), or any other
value. -/
inductive UData where
| litTuple (elts : List UVar)
| litList (elts : List UVar)
| nonLiteral (tag : Nat)

/-- Environment for unpacking: whether the merged non-literal sequence
resolves `__iter__` or `__getitem__`, and whether a pre-existing variable
has bindings. -/
structure UEnv where
  hasIter : Bool
  hasGetitem : Bool
  atomHasBindings : Nat → Bool

/-- Models `VirtualMachine._get_literal_sequence`, first two branches: a literal
tuple or list constant yields its elements; anything else yields none.
The fallback for subclasses of heterogeneous tuples (named tuples) is not
exercised by the claims and is folded into the non-literal case. -/
def get_literal_sequence : UData → Option (List UVar)
| UData.litTuple elts => some elts
| UData.litList elts => some elts
| UData.nonLiteral _ => none

/-- Models `VirtualMachine._restructure_tuple`: collapse the middle part of a
literal tuple into a list variable. -/
def restructure_tuple (tup : List UVar) (pre post : Nat) : List UVar :=
  let before := tup.take pre
  let after := if 0 < post then tup.drop (tup.length - post) else []
  let rest := if 0 < post then (tup.drop pre).take (tup.length - post - pre)
              else tup.drop pre
  before ++ [UVar.listOf rest] ++ after

/-- Models `VirtualMachine._get_iter` with report_errors true: try `__iter__`, fall
back to `__getitem__` wrapped in a synthetic iterator, else degrade to an
unsolvable variable. -/
def get_iter (env : UEnv) : UVar :=
  if env.hasIter then UVar.iterCall
  else if env.hasGetitem then UVar.legacyIter UVar.getitemResult
  else UVar.unsolvableVar

mutual

/-- Whether a symbolic variable has at least one binding.  `build_list`,
`build_list_of_type` and the iterator results always produce a binding;
`build_content` has a binding exactly when one of the merged variables
does. -/
def hasBindings (env : UEnv) : UVar → Bool
| UVar.atom n => env.atomHasBindings n
| UVar.listOf _ => true
| UVar.listOfType _ => true
| UVar.contentOf vs => anyHasBindings env vs
| UVar.nextResult => true
| UVar.iterCall => true
| UVar.legacyIter _ => true
| UVar.getitemResult => true
| UVar.unsolvableVar => true
| UVar.emptyVar => false

/-- Helper of `hasBindings` for a list of merged variables. -/
def anyHasBindings (env : UEnv) : List UVar → Bool
| [] => false
| v :: vs => hasBindings env v || anyHasBindings env vs

end

/-- Heads and tails of a list of lists, defined when every list is
nonempty; the building block of the transpose below. -/
def heads {α : Type} : List (List α) → Option (List α × List (List α))
| [] => some ([], [])
| [] :: _ => none
| (a :: as) :: rest =>
    match heads rest with
    | none => none
    | some (hs, ts) => some (a :: hs, as :: ts)

/-- Fuel-bounded core of the transpose. -/
def zipStarAux {α : Type} : Nat → List (List α) → List (List α)
| 0, _ => []
| n + 1, ls =>
    match heads ls with
    | none => []
    | some (hs, ts) => hs :: zipStarAux n ts

/-- The python expression `zip(star options)`: transpose a list of rows into
the list of columns, stopping at the shortest row. -/
def zipStar {α : Type} (ls : List (List α)) : List (List α) :=
  match ls with
  | [] => []
  | l :: rest => zipStarAux l.length (l :: rest)

/-- One step of the binding pass of `_unpack_sequence`: a literal
alternative of usable arity is unpacked positionally into the options,
anything else is collected for the iterator fallback. -/
def partitionStep (n_before : Nat) (n_after : Int)
    (acc : List (List UVar) × List UData) (b : UData) :
    List (List UVar) × List UData :=
  match get_literal_sequence b with
  | some tup =>
      if n_after > -1 ∧ (tup.length : Int) ≥ (n_before : Int) + n_after + 1 then
        (acc.1 ++ [restructure_tuple tup n_before n_after.toNat], acc.2)
      else if (tup.length : Int) = (n_before : Int) + n_after + 1 then
        (acc.1 ++ [tup], acc.2)
      else (acc.1, acc.2 ++ [b])
  | none => (acc.1, acc.2 ++ [b])

/-- The single pass of `_unpack_sequence` over the bindings of the popped
variable. -/
def partitionBindings (seq : List UData) (n_before : Nat) (n_after : Int) :
    List (List UVar) × List UData :=
  seq.foldl (partitionStep n_before n_after) ([], [])

/-- How one binding is unpacked literally, if it can be: the positional
restructuring in the starred form when the literal is long enough, or the
literal itself when its arity matches exactly. -/
def literalPart (n_before : Nat) (n_after : Int) (b : UData) :
    Option (List UVar) :=
  match get_literal_sequence b with
  | some tup =>
      if n_after > -1 ∧ (tup.length : Int) ≥ (n_before : Int) + n_after + 1 then
        some (restructure_tuple tup n_before n_after.toNat)
      else if (tup.length : Int) = (n_before : Int) + n_after + 1 then
        some tup
      else none
  | none => none

/-- The literal options of an unpack, in binding order. -/
def literalOptions (seq : List UData) (n_before : Nat) (n_after : Int) :
    List (List UVar) :=
  seq.filterMap (literalPart n_before n_after)

/-- The bindings that are not literal sequences of usable arity and fall
back to the iteration protocol. -/
def nontupleOf (seq : List UData) (n_before : Nat) (n_after : Int) :
    List UData :=
  seq.filter (fun b => (literalPart n_before n_after b).isNone)

/-- The fallback option built from the single `next` result: the result
stands for every position, the starred position wrapped in a list typed
value. -/
def fallbackOption (n_before : Nat) (n_after : Int) : List UVar :=
  let option := List.replicate ((n_before : Int) + n_after + 1).toNat UVar.nextResult
  if n_after > -1 then option.set n_before (UVar.listOfType UVar.nextResult)
  else option

/-- Result of `_unpack_sequence`: the per-position variables (in source
order, before they are pushed in reverse onto the data stack), the number
of times the iteration protocol `next` method was called, and the iterator
that was obtained, if any. -/
structure UnpackResult where
  values : List UVar
  nextCalls : Nat
  iterUsed : Option UVar

/-- Models `VirtualMachine._unpack_sequence` (vm.py lines 1760 to 1813): unpack
literal alternatives positionally; for the remaining bindings obtain one
iterator from their merged variable, call `next` on it once, and use the
result for every position, wrapping the starred position in a list typed
value; union the per-position results of all alternatives positionally and
default empty positions to the empty sentinel. -/
def unpack_sequence (env : UEnv) (seq : List UData) (n_before : Nat)
    (n_after : Int) : UnpackResult :=
  let has_slurp := n_after > -1
  let count : Int := (n_before : Int) + n_after + 1
  let p := partitionBindings seq n_before n_after
  let r :=
    if p.2.isEmpty then (p.1, 0, (none : Option UVar))
    else
      let result := UVar.nextResult
      let option := List.replicate count.toNat result
      let option := if has_slurp then option.set n_before (UVar.listOfType result)
                    else option
      (p.1 ++ [option], 1, some (get_iter env))
  let values := (zipStar r.1).map (fun col => UVar.contentOf col)
  let values := values.map (fun v => if hasBindings env v then v else UVar.emptyVar)
  { values := values, nextCalls := r.2.1, iterUsed := r.2.2 }

end Unpack

namespace Callfn

/-- The outcome of `func.call` for one binding of the callee variable:
either it succeeds with a new node and the bindings of its result
variable, or it raises a `FailedFunctionCall`, or it raises a
`DictKeyMissing`.  The rank models the ordering the source applies with
`e > error` (modelled from the spec rule that failures are ranked and the
most specific error surfaces; the comparison methods live in
abstract.py). -/
inductive CallOutcome where
| succeeds (retNode : Nat) (ret : List AVal)
| failsCall (rank : Nat)
| failsKey (rank : Nat) (key : String)
deriving DecidableEq, Repr

/-- One binding of the callee variable: the name of the function value and
the outcome of calling it. -/
structure FuncBinding where
  name : String
  outcome : CallOutcome
deriving DecidableEq, Repr

/-- The saved error of `call_function`: the kind distinguishes the two
exception classes the source catches. -/
inductive CallErr where
| ffc (rank : Nat)
| dkm (rank : Nat) (key : String)
deriving DecidableEq, Repr

/-- Rank of a saved error, used for the `e > error` comparison. -/
def CallErr.rank : CallErr → Nat
| CallErr.ffc r => r
| CallErr.dkm r _ => r

/-- The update `if e > error: error = e` of the source; a comparison with
the initial None is always true. -/
def maxErr (cur : Option CallErr) (e : CallErr) : Option CallErr :=
  match cur with
  | none => some e
  | some c => if e.rank > c.rank then some e else some c

/-- Entries reported to the error log by `call_function`. -/
inductive LogEntry where
| keyError (key : String)
| invalidCall (e : Option CallErr)
deriving DecidableEq, Repr

/-- Result of `call_function`: either a node, the bindings of the result
variable and the log entries emitted, or a raised error (only possible
when fallback_to_unsolvable is false). -/
inductive CallResult where
| ok (node : Nat) (ret : List AVal) (log : List LogEntry)
| raised (e : Option CallErr)
deriving DecidableEq, Repr

/-- Models `VirtualMachine._call_with_fake_args` (vm.py lines 907 to 909): this
snapshot returns a fresh unsolvable variable at the current node. -/
def call_with_fake_args (node : Nat) : Nat × List AVal :=
  (node, [AVal.Unsolvable])

/-- One step of the `call_function` loop: paste the result variable and
collect the node on success, otherwise keep the highest ranked error. -/
def callStep (acc : List AVal × List Nat × Option CallErr) (fb : FuncBinding) :
    List AVal × List Nat × Option CallErr :=
  match fb.outcome with
  | CallOutcome.succeeds n rs => (acc.1 ++ rs, acc.2.1 ++ [n], acc.2.2)
  | CallOutcome.failsCall r => (acc.1, acc.2.1, maxErr acc.2.2 (CallErr.ffc r))
  | CallOutcome.failsKey r k => (acc.1, acc.2.1, maxErr acc.2.2 (CallErr.dkm r k))

/-- The loop of `call_function` over the bindings of the callee variable,
threading the accumulator. -/
def callLoopAux : List FuncBinding → (List AVal × List Nat × Option CallErr) →
    List AVal × List Nat × Option CallErr
| [], acc => acc
| fb :: rest, acc => callLoopAux rest (callStep acc fb)

/-- The loop of `call_function` over the bindings of the callee variable:
accumulates pasted result bindings, the nodes of successful calls, and the
highest ranked error of failed calls. -/
def callLoop (funcs : List FuncBinding) : List AVal × List Nat × Option CallErr :=
  callLoopAux funcs ([], [], none)

/-- Models `VirtualMachine.call_function` (vm.py lines 911 to 963): call every
binding of the callee variable; if any call succeeded, join the nodes and
make the result unsolvable if it has no bindings; otherwise either report
the best error once (retrying `__init__` calls with fake arguments) and
return a fresh unsolvable variable, or re-raise when fallback is off. -/
def call_function (node : Nat) (funcs : List FuncBinding)
    (fallback_to_unsolvable : Bool) : CallResult :=
  let r := callLoop funcs
  if r.2.1.isEmpty then
    if fallback_to_unsolvable then
      match r.2.2 with
      | some (CallErr.dkm _ k) =>
          CallResult.ok node [AVal.Unsolvable] [LogEntry.keyError k]
      | e =>
          if funcs.all (fun fb => fb.name == "__init__") then
            CallResult.ok (call_with_fake_args node).1 (call_with_fake_args node).2
              [LogEntry.invalidCall e]
          else
            CallResult.ok node [AVal.Unsolvable] [LogEntry.invalidCall e]
    else CallResult.raised r.2.2
  else
    CallResult.ok (Framerun.join_cfg_nodes r.2.1)
      (if r.1.isEmpty then [AVal.Unsolvable] else r.1) []

/-- Whether a call outcome is a raised `FailedFunctionCall`. -/
def isFailsCall : CallOutcome → Bool
| CallOutcome.failsCall _ => true
| _ => false

/-- Whether a call outcome is a raised exception of either kind. -/
def isFail : CallOutcome → Bool
| CallOutcome.succeeds _ _ => false
| _ => true

/-- The result bindings of a call result; a raised error carries none. -/
def CallResult.retOf : CallResult → List AVal
| CallResult.ok _ ret _ => ret
| CallResult.raised _ => []

/-- The log entries of a call result. -/
def CallResult.logOf : CallResult → List LogEntry
| CallResult.ok _ _ log => log
| CallResult.raised _ => []

/-- Whether the call returned instead of raising. -/
def CallResult.isOk : CallResult → Bool
| CallResult.ok _ _ _ => true
| CallResult.raised _ => false

end Callfn

namespace Convert

/-- Models `MAX_IMPORT_DEPTH` from convert.py line 22. -/
def MAX_IMPORT_DEPTH : Int := 12

/-- The primitive classes relevant to the claims (the source keeps a
dictionary `primitive_classes` over the builtin types). -/
inductive PrimClass where
| intC
| strC
| boolC
| noneC
| floatC
deriving DecidableEq, Repr

/-- Literal payloads of `abstract.AbstractOrConcreteValue`. -/
inductive Lit where
| litStr (s : String)
| litInt (n : Int)
| litBool (b : Bool)
deriving DecidableEq, Repr

/-- The constants fed to `constant_to_value`, restricted to the shapes the
claims exercise.  `classRef name` stands for a `pytd.ClassType` reference
to the class declaration of that name; `unionType` and `tupleType` are
`pytd.UnionType` and `pytd.TupleType` whose parameters are class
references; the `asInstance` constructors are `abstract.AsInstance`
wrappers of a plain class, a tuple type, and a generic type. -/
inductive PyVal where
| pyNone
| pyBool (b : Bool)
| pyStr (s : String)
| pyInt (n : Int)
| pyLong (n : Int)
| classRef (name : String)
| unionType (options : List String)
| tupleType (params : List String)
| asInstanceClass (name : String)
| asInstanceTuple (params : List String)
| asInstanceGeneric (base : String) (params : List String)
deriving DecidableEq, Repr

/-- Constructed abstract values.  Identity matters for the claims, so every
allocated value carries the allocation id it received from the converter
state; `noneV`, `primInstance` and `unsolvableV` are the process-wide
singletons built in `Converter.__init__`. -/
inductive CVal where
| concrete (id : Nat) (lit : Lit) (cls : PrimClass)
| primInstance (cls : PrimClass)
| noneV
| unknownV (id : Nat)
| unsolvableV
| classV (id : Nat) (name : String)
| unionV (id : Nat) (options : List CVal)
| tupleClassV (id : Nat) (positional : List CVal) (tslot : CVal)
| instanceV (id : Nat) (clsName : String)
| tupleInstV (id : Nat) (content : List CVal)
| genericInstV (id : Nat) (base : String) (node : Nat) (params : List CVal)

/-- The declaration table: each class name maps to the names of its base
classes (the opaque declaration tree of the loader). -/
def Table : Type := List (String × List String)

/-- Lookup in the declaration table. -/
def lookupT : Table → String → Option (List String)
| [], _ => none
| (k, v) :: rest, key => if k = key then some v else lookupT rest key

/-- The converter state: the constant cache (an entry holding `none` is the
in-progress sentinel of the recursion guard), the per-class instance cache
(the `(abstract.Instance, cls)` entries of the same dictionary), the next
allocation id, and the emitted recursion diagnostics. -/
structure CState where
  cache : List (PyVal × Option CVal)
  icache : List (String × CVal)
  nextId : Nat
  diags : List String

/-- Lookup in the constant cache: `none` means the key is absent,
`some none` the in-progress sentinel, `some (some v)` a settled entry. -/
def lookupC : List (PyVal × Option CVal) → PyVal → Option (Option CVal)
| [], _ => none
| (k, v) :: rest, key => if k = key then some v else lookupC rest key

/-- Write an entry of the constant cache. -/
def setC : List (PyVal × Option CVal) → PyVal → Option CVal →
    List (PyVal × Option CVal)
| [], key, v => [(key, v)]
| (k, w) :: rest, key, v =>
    if k = key then (k, v) :: rest else (k, w) :: setC rest key v

/-- Lookup in the instance cache. -/
def lookupI : List (String × CVal) → String → Option CVal
| [], _ => none
| (k, v) :: rest, key => if k = key then some v else lookupI rest key

/-- Write an entry of the instance cache. -/
def setI : List (String × CVal) → String → CVal → List (String × CVal)
| [], key, v => [(key, v)]
| (k, w) :: rest, key, v =>
    if k = key then (k, v) :: rest else (k, w) :: setI rest key v

/-- Allocate a fresh id. -/
def bump (st : CState) : CState := { st with nextId := st.nextId + 1 }

/-- Whether a converted value is a class value, modelling the
`isinstance(base_cls, abstract.Class)` test. -/
def isClassVal : CVal → Bool
| CVal.classV _ _ => true
| _ => false

/-- The name used by the recursion diagnostic: `pyval.name` when the value
has one, else the name of its class. -/
def recursionName : PyVal → String
| PyVal.classRef name => name
| PyVal.asInstanceClass name => name
| PyVal.asInstanceGeneric name _ => name
| PyVal.pyNone => "NoneType"
| PyVal.pyBool _ => "bool"
| PyVal.pyStr _ => "str"
| PyVal.pyInt _ => "int"
| PyVal.pyLong _ => "long"
| PyVal.unionType _ => "UnionType"
| PyVal.tupleType _ => "TupleType"
| PyVal.asInstanceTuple _ => "TupleType"

/-- The root cfg node is node 0. -/
def rootNode : Nat := 0

mutual

/-- Models `Converter.constant_to_value` (convert.py lines 365 to 412): memoized
conversion with the recursion guard.  A cache hit returns the settled
value; hitting the in-progress sentinel emits a recursion diagnostic and
settles the key to unsolvable; otherwise the sentinel is stored, the value
is constructed, and it is stored back only if its construction never asked
for the current node or the node is the root node.  The first argument is
fuel; `none` means the fuel ran out. -/
def constant_to_value : Nat → Table → PyVal → Nat → CState →
    Option (CVal × CState)
| 0, _, _, _, _ => none
| fuel + 1, tbl, pv, node, st =>
    match lookupC st.cache pv with
    | some (some v) => some (v, st)
    | some none =>
        some (CVal.unsolvableV,
          { st with cache := setC st.cache pv (some CVal.unsolvableV),
                    diags := st.diags ++ [recursionName pv] })
    | none =>
        let st1 := { st with cache := setC st.cache pv none }
        match constant_to_value_inner fuel tbl pv node st1 with
        | none => none
        | some (v, needNode, st2) =>
            if needNode = false ∨ node = rootNode then
              some (v, { st2 with cache := setC st2.cache pv (some v) })
            else
              some (v, st2)

/-- Models `Converter._constant_to_value` (convert.py lines 415 to 607), restricted
to the branches the claims exercise.  The boolean result is the
`need_node` flag: whether the construction called `get_node`.  Strings and
small integers (booleans included, since bool is a subclass of int) become
concrete values; other integers and longs become the shared int instance;
None becomes the none singleton; a class reference expands its base
declarations (modelled from the spec: `PyTDClass` construction in
abstract.py recursively expands the base class declarations) and builds a
class value; unions convert their options and wrap them when there are at
least two; tuple types build a `TupleClass` with one slot per position
plus the synthesized union slot; `AsInstance` of a plain class goes
through the per-class instance cache; `AsInstance` of a tuple type
converts each parameter at the current node via `get_node`; `AsInstance`
of a generic type converts the base and parameters at the root node and
initializes the type parameters at `get_node`. -/
def constant_to_value_inner : Nat → Table → PyVal → Nat → CState →
    Option (CVal × Bool × CState)
| 0, _, _, _, _ => none
| fuel + 1, tbl, pv, node, st =>
    match pv with
    | PyVal.pyStr s =>
        some (CVal.concrete st.nextId (Lit.litStr s) PrimClass.strC, false, bump st)
    | PyVal.pyBool b =>
        some (CVal.concrete st.nextId (Lit.litBool b) PrimClass.intC, false, bump st)
    | PyVal.pyInt n =>
        if -1 ≤ n ∧ n ≤ MAX_IMPORT_DEPTH then
          some (CVal.concrete st.nextId (Lit.litInt n) PrimClass.intC, false, bump st)
        else
          some (CVal.primInstance PrimClass.intC, false, st)
    | PyVal.pyLong _ => some (CVal.primInstance PrimClass.intC, false, st)
    | PyVal.pyNone => some (CVal.noneV, false, st)
    | PyVal.classRef name =>
        match lookupT tbl name with
        | none => some (CVal.unsolvableV, false, st)
        | some bases =>
            match constant_to_value_list fuel tbl (bases.map PyVal.classRef)
                rootNode st with
            | none => none
            | some (_, st1) =>
                some (CVal.classV st1.nextId name, false, bump st1)
    | PyVal.unionType options =>
        match constant_to_value_list fuel tbl (options.map PyVal.classRef)
            rootNode st with
        | none => none
        | some (vs, st1) =>
            if vs.length > 1 then
              some (CVal.unionV st1.nextId vs, false, bump st1)
            else
              some (vs.headD CVal.unsolvableV, false, st1)
    | PyVal.tupleType params =>
        match constant_to_value fuel tbl (PyVal.classRef "__builtin__.tuple")
            rootNode st with
        | none => none
        | some (baseCls, st1) =>
            if isClassVal baseCls then
              match constant_to_value_list fuel tbl (params.map PyVal.classRef)
                  rootNode st1 with
              | none => none
              | some (posVals, st2) =>
                  match constant_to_value fuel tbl (PyVal.unionType params)
                      rootNode st2 with
                  | none => none
                  | some (tVal, st3) =>
                      some (CVal.tupleClassV st3.nextId posVals tVal, false,
                        bump st3)
            else some (CVal.unsolvableV, false, st1)
    | PyVal.asInstanceClass name =>
        match lookupI st.icache name with
        | some v => some (v, false, st)
        | none =>
            if name = "__builtin__.type" ∨ name = "__builtin__.property" then
              let inst := CVal.unknownV st.nextId
              some (inst, false,
                { bump st with icache := setI st.icache name inst })
            else
              match constant_to_value fuel tbl (PyVal.classRef name)
                  rootNode st with
              | none => none
              | some (_, st1) =>
                  let inst := CVal.instanceV st1.nextId name
                  some (inst, false,
                    { bump st1 with icache := setI st1.icache name inst })
    | PyVal.asInstanceTuple params =>
        match constant_to_value_list fuel tbl (params.map PyVal.asInstanceClass)
            node st with
        | none => none
        | some (content, st1) =>
            some (CVal.tupleInstV st1.nextId content, !params.isEmpty, bump st1)
    | PyVal.asInstanceGeneric base params =>
        match constant_to_value fuel tbl (PyVal.classRef base) rootNode st with
        | none => none
        | some (_, st1) =>
            match constant_to_value_list fuel tbl
                (params.map PyVal.asInstanceClass) rootNode st1 with
            | none => none
            | some (pvals, st2) =>
                some (CVal.genericInstV st2.nextId base node pvals,
                  !params.isEmpty, bump st2)

/-- Sequential conversion of a list of constants, threading the state. -/
def constant_to_value_list : Nat → Table → List PyVal → Nat → CState →
    Option (List CVal × CState)
| 0, _, _, _, _ => none
| _ + 1, _, [], _, st => some ([], st)
| fuel + 1, tbl, pv :: pvs, node, st =>
    match constant_to_value fuel tbl pv node st with
    | none => none
    | some (v, st1) =>
        match constant_to_value_list fuel tbl pvs node st1 with
        | none => none
        | some (vs, st2) => some (v :: vs, st2)

end

/-- Size measure on constants, used for the termination bound: every
constructor exceeds the sizes of the constants its conversion recurses
into structurally (class references recurse through the declaration table
instead and are handled by the missing-name count). -/
def sz : PyVal → Nat
| PyVal.pyNone => 1
| PyVal.pyBool _ => 1
| PyVal.pyStr _ => 1
| PyVal.pyInt _ => 1
| PyVal.pyLong _ => 1
| PyVal.classRef _ => 2
| PyVal.unionType _ => 3
| PyVal.tupleType _ => 4
| PyVal.asInstanceClass _ => 4
| PyVal.asInstanceTuple _ => 5
| PyVal.asInstanceGeneric _ _ => 5

/-- How many of the given class names have no entry at all in the constant
cache. -/
def countMissing (c : List (PyVal × Option CVal)) : List String → Nat
| [] => 0
| n :: rest =>
    (if (lookupC c (PyVal.classRef n)).isSome then 0 else 1) +
      countMissing c rest

/-- The number of declared class names whose class reference has no entry
at all in the constant cache; expanding a declaration stores its sentinel
and strictly decreases this count. -/
def missing (tbl : Table) (c : List (PyVal × Option CVal)) : Nat :=
  countMissing c (tbl.map Prod.fst)

/-- Cache evolution invariant: entries are never removed, and a settled
entry keeps its value (the in-progress sentinel may only be replaced by a
settled value). -/
def cachePreserved (c c' : List (PyVal × Option CVal)) : Prop :=
  ∀ k, ((lookupC c k).isSome = true → (lookupC c' k).isSome = true) ∧
    (∀ w, lookupC c k = some (some w) → lookupC c' k = some (some w))

/-- Instance cache evolution invariant: entries are never removed nor
changed. -/
def icachePreserved (i i' : List (String × CVal)) : Prop :=
  ∀ n w, lookupI i n = some w → lookupI i' n = some w

/-- Evolution invariant for the whole converter state. -/
def statePreserved (st st' : CState) : Prop :=
  cachePreserved st.cache st'.cache ∧ icachePreserved st.icache st'.icache

/-- Whether the inner conversion of a constant never requests the current
node; for these constants the constructed value is always stored. -/
def needNodeFree : PyVal → Bool
| PyVal.asInstanceTuple _ => false
| PyVal.asInstanceGeneric _ _ => false
| _ => true

/-- A sequence of conversion calls, each with its own fuel and node,
threading the converter state; a call that runs out of fuel leaves the
state unchanged. -/
def convertSeq (tbl : Table) : List (Nat × PyVal × Nat) → CState → CState
| [], st => st
| (f, pv, node) :: rest, st =>
    match constant_to_value f tbl pv node st with
    | none => convertSeq tbl rest st
    | some (_, st') => convertSeq tbl rest st'

/-- The cyclic declaration table used to exercise the recursion guard: two
classes that each list the other as a base. -/
def tblC3 : Table := [("A", ["B"]), ("B", ["A"])]

/-- An empty converter state. -/
def emptyState : CState :=
  { cache := [], icache := [], nextId := 0, diags := [] }

/-- The cache as `Converter.__init__` leaves it: the primitive classes are
converted (and therefore settled in the constant cache), and one instance
per primitive class is stored in the per-class instance cache, the
NoneType entry being the none singleton itself. -/
def initState : CState :=
  { cache :=
      [ (PyVal.classRef "__builtin__.int", some (CVal.classV 0 "__builtin__.int")),
        (PyVal.classRef "__builtin__.str", some (CVal.classV 1 "__builtin__.str")),
        (PyVal.classRef "__builtin__.bool", some (CVal.classV 2 "__builtin__.bool")),
        (PyVal.classRef "__builtin__.float", some (CVal.classV 3 "__builtin__.float")),
        (PyVal.classRef "__builtin__.NoneType", some (CVal.classV 4 "__builtin__.NoneType")),
        (PyVal.classRef "__builtin__.tuple", some (CVal.classV 5 "__builtin__.tuple")) ],
    icache :=
      [ ("__builtin__.int", CVal.primInstance PrimClass.intC),
        ("__builtin__.str", CVal.primInstance PrimClass.strC),
        ("__builtin__.bool", CVal.primInstance PrimClass.boolC),
        ("__builtin__.float", CVal.primInstance PrimClass.floatC),
        ("__builtin__.NoneType", CVal.noneV) ],
    nextId := 6,
    diags := [] }

/-- The canonical class value for str produced at converter start. -/
def str_type : CVal := CVal.classV 1 "__builtin__.str"

/-- The canonical class value for int produced at converter start. -/
def int_type : CVal := CVal.classV 0 "__builtin__.int"

end Convert

/-! ## Supporting lemmas -/

/-- The node dependent constant used to witness C2: an instance of a
generic type with one parameter, whose construction initializes a type
parameter at the current node. -/
def pvC2 : Convert.PyVal :=
  Convert.PyVal.asInstanceGeneric "__builtin__.int" ["__builtin__.str"]

/-- The value constructed for `pvC2` at node 5 from the initial state. -/
def c2Val : Convert.CVal :=
  Convert.CVal.genericInstV 6 "__builtin__.int" 5
    [Convert.CVal.primInstance Convert.PrimClass.strC]

/-- The converter state after constructing `pvC2` at node 5: the sentinel
of `pvC2` is still in place because the value was node dependent and the
node was not the root. -/
def c2St2 : Convert.CState :=
  { cache := Convert.initState.cache ++
      [(pvC2, none),
       (Convert.PyVal.asInstanceClass "__builtin__.str",
        some (Convert.CVal.primInstance Convert.PrimClass.strC))],
    icache := Convert.initState.icache,
    nextId := 7,
    diags := [] }

/-- An unpack environment whose sequence resolves the iterator method and
whose pre-existing variables all have bindings. -/
def c6Env : Unpack.UEnv :=
  { hasIter := true, hasGetitem := false, atomHasBindings := fun _ => true }

/-- A converter state whose constant cache holds the in-progress sentinel
for class A, as it stands while the declaration of A is being expanded. -/
def c3SentState : Convert.CState :=
  { cache := [(Convert.PyVal.classRef "A", none)], icache := [], nextId := 0,
    diags := [] }

/-- State after converting the None literal once from the initial state. -/
def c7St1 : Convert.CState :=
  { cache := Convert.initState.cache ++
      [(Convert.PyVal.pyNone, some Convert.CVal.noneV)],
    icache := Convert.initState.icache, nextId := 6, diags := [] }

/-- An intervening conversion sequence: one small integer at the root. -/
def c7Calls : List (Nat × Convert.PyVal × Nat) :=
  [(5, Convert.PyVal.pyInt 1, 0)]

/-- State after the None conversion and the intervening conversion. -/
def c7Mid : Convert.CState :=
  { cache := c7St1.cache ++
      [(Convert.PyVal.pyInt 1,
        some (Convert.CVal.concrete 6 (Convert.Lit.litInt 1)
          Convert.PrimClass.intC))],
    icache := Convert.initState.icache, nextId := 7, diags := [] }

/-- The concrete value allocated for the literal True on first conversion. -/
def c7TrueVal : Convert.CVal :=
  Convert.CVal.concrete 6 (Convert.Lit.litBool true) Convert.PrimClass.intC

/-- State after converting the literal True once from the initial state. -/
def c7TSt1 : Convert.CState :=
  { cache := Convert.initState.cache ++
      [(Convert.PyVal.pyBool true, some c7TrueVal)],
    icache := Convert.initState.icache, nextId := 7, diags := [] }

/-- State after converting the str instance once from the initial state. -/
def c7ISt1 : Convert.CState :=
  { cache := Convert.initState.cache ++
      [(Convert.PyVal.asInstanceClass "__builtin__.str",
        some (Convert.CVal.primInstance Convert.PrimClass.strC))],
    icache := Convert.initState.icache, nextId := 6, diags := [] }

/-- A dispatch environment with no classes and no attributes. -/
def plainEnv : Binop.DispatchEnv :=
  { mro := fun _ => [],
    hasAttr := fun _ _ => false,
    cls := fun v => match v with | AVal.InstanceOf c => [c] | _ => [] }

/-- A dispatch environment in which class 2 subclasses class 1 and defines
the reflected add method. -/
def overrideEnv : Binop.DispatchEnv :=
  { mro := fun c => if c = 2 then [2, 1] else [c],
    hasAttr := fun c a => c = 2 && a = "__radd__",
    cls := fun v => match v with | AVal.InstanceOf c => [c] | _ => [] }

/-- A block whose final reason is none appended nothing to the frame
return variable. -/
theorem runBlock_no_why (b : List Framerun.Instr) (st : Framerun.VMState)
    (retVar : List AVal)
    (h : (Framerun.runBlock b st retVar).1.why = none) :
    (Framerun.runBlock b st retVar).2 = retVar := by
  induction b generalizing st retVar with
  | nil => rfl
  | cons op ops ih =>
      cases op with
      | returnValue v => simp [Framerun.runBlock, Framerun.run_instruction] at h
      | raiseErr => simp [Framerun.runBlock, Framerun.run_instruction] at h
      | nop =>
          simp only [Framerun.runBlock, Framerun.run_instruction] at h ⊢
          cases hw : st.why with
          | some w => simp [hw] at h
          | none =>
              simp only [hw] at h ⊢
              exact ih st retVar h

/-- If the block loop collected no return node, the return variable kept
its initial bindings and the collected list was empty from the start. -/
theorem runBlocks_empty_nodes (blocks : List (List Framerun.Instr))
    (inSt : Option Framerun.VMState) (returnNodes : List Nat)
    (retVar : List AVal)
    (h : (Framerun.runBlocks blocks inSt returnNodes retVar).1 = []) :
    (Framerun.runBlocks blocks inSt returnNodes retVar).2 = retVar ∧
      returnNodes = [] := by
  induction blocks generalizing inSt returnNodes retVar with
  | nil => exact ⟨rfl, h⟩
  | cons b rest ih =>
      cases inSt with
      | none => exact ih none returnNodes retVar h
      | some st =>
          simp only [Framerun.runBlocks] at h ⊢
          cases hw : (Framerun.runBlock b st retVar).1.why with
          | some w =>
              simp only [hw] at h ⊢
              rcases ih none (returnNodes ++ [(Framerun.runBlock b st retVar).1.node])
                (Framerun.runBlock b st retVar).2 h with ⟨_, habs⟩
              simp at habs
          | none =>
              simp only [hw] at h ⊢
              rcases ih (some { node := (Framerun.runBlock b st retVar).1.node + 1, why := none })
                returnNodes (Framerun.runBlock b st retVar).2 h with ⟨h1, h2⟩
              exact ⟨by rw [h1, runBlock_no_why b st retVar hw], h2⟩

/-- When every callee binding fails, the call loop pastes no result
binding and collects no node. -/
theorem callLoopAux_fail (funcs : List Callfn.FuncBinding)
    (acc : List AVal × List Nat × Option Callfn.CallErr)
    (h : ∀ fb ∈ funcs, Callfn.isFail fb.outcome = true) :
    (Callfn.callLoopAux funcs acc).1 = acc.1 ∧
      (Callfn.callLoopAux funcs acc).2.1 = acc.2.1 := by
  induction funcs generalizing acc with
  | nil => exact ⟨rfl, rfl⟩
  | cons fb rest ih =>
      have hfb := h fb (by simp)
      have hrest : ∀ g ∈ rest, Callfn.isFail g.outcome = true :=
        fun g hg => h g (by simp [hg])
      cases ho : fb.outcome with
      | succeeds n rs => simp [Callfn.isFail, ho] at hfb
      | failsCall r =>
          simpa [Callfn.callLoopAux, Callfn.callStep, ho] using
            ih (acc.1, acc.2.1, Callfn.maxErr acc.2.2 (Callfn.CallErr.ffc r)) hrest
      | failsKey r k =>
          simpa [Callfn.callLoopAux, Callfn.callStep, ho] using
            ih (acc.1, acc.2.1, Callfn.maxErr acc.2.2 (Callfn.CallErr.dkm r k)) hrest

/-- The saved error update always yields an error. -/
theorem maxErr_isSome (cur : Option Callfn.CallErr) (e : Callfn.CallErr) :
    (Callfn.maxErr cur e).isSome = true := by
  cases cur with
  | none => rfl
  | some c =>
      simp only [Callfn.maxErr]
      split <;> rfl

/-- Once the saved error is set it stays set through the call loop. -/
theorem callLoopAux_err_mono (funcs : List Callfn.FuncBinding)
    (acc : List AVal × List Nat × Option Callfn.CallErr)
    (h : acc.2.2.isSome = true) :
    (Callfn.callLoopAux funcs acc).2.2.isSome = true := by
  induction funcs generalizing acc with
  | nil => exact h
  | cons fb rest ih =>
      simp only [Callfn.callLoopAux, Callfn.callStep]
      cases ho : fb.outcome with
      | succeeds n rs => exact ih _ h
      | failsCall r => exact ih _ (maxErr_isSome _ _)
      | failsKey r k => exact ih _ (maxErr_isSome _ _)

/-- A nonempty list of failing callee bindings leaves a saved error. -/
theorem callLoopAux_err_some (fb : Callfn.FuncBinding)
    (rest : List Callfn.FuncBinding)
    (acc : List AVal × List Nat × Option Callfn.CallErr)
    (hfb : Callfn.isFail fb.outcome = true) :
    (Callfn.callLoopAux (fb :: rest) acc).2.2.isSome = true := by
  simp only [Callfn.callLoopAux, Callfn.callStep]
  cases ho : fb.outcome with
  | succeeds n rs => simp [Callfn.isFail, ho] at hfb
  | failsCall r => exact callLoopAux_err_mono rest _ (maxErr_isSome _ _)
  | failsKey r k => exact callLoopAux_err_mono rest _ (maxErr_isSome _ _)

/-- The saved error is never a missing dictionary key when every failing
binding raised a failed call and the accumulator held none. -/
theorem callLoopAux_ffc (funcs : List Callfn.FuncBinding)
    (acc : List AVal × List Nat × Option Callfn.CallErr)
    (h : ∀ fb ∈ funcs, Callfn.isFailsCall fb.outcome = true)
    (hacc : ∀ r k, acc.2.2 ≠ some (Callfn.CallErr.dkm r k)) :
    ∀ r k, (Callfn.callLoopAux funcs acc).2.2 ≠ some (Callfn.CallErr.dkm r k) := by
  induction funcs generalizing acc with
  | nil => exact hacc
  | cons fb rest ih =>
      have hfb := h fb (by simp)
      have hrest : ∀ g ∈ rest, Callfn.isFailsCall g.outcome = true :=
        fun g hg => h g (by simp [hg])
      cases ho : fb.outcome with
      | succeeds n rs => simp [Callfn.isFailsCall, ho] at hfb
      | failsKey r k => simp [Callfn.isFailsCall, ho] at hfb
      | failsCall r =>
          simp only [Callfn.callLoopAux, Callfn.callStep, ho]
          refine ih (acc.1, acc.2.1, Callfn.maxErr acc.2.2 (Callfn.CallErr.ffc r)) hrest ?_
          intro r2 k2
          cases he : acc.2.2 with
          | none => simp [Callfn.maxErr]
          | some c =>
              have := hacc
              simp only [Callfn.maxErr]
              by_cases hrank : (Callfn.CallErr.ffc r).rank > c.rank
              · simp [hrank]
              · simpa [hrank, he] using hacc r2 k2

/-! ## Claims C1 and C5: binary operator dispatch order -/

/-- C1 (counterexample): the claim asserts that when the operator has a
reflected form and the override condition fails, the forward method is
tried first.  With an ambiguous left operand the source short circuits and
tries no method at all, so the first attempt is not the forward method. -/
theorem C1_counterexample :
    Binop.reverse_operator_name "__add__" = some "__radd__" ∧
    Binop.overrides plainEnv (plainEnv.cls (AVal.InstanceOf 2))
      (plainEnv.cls AVal.Unsolvable) "__radd__" = false ∧
    Binop.firstAttempt
      (Binop.call_binop_on_bindings plainEnv "__add__" AVal.Unsolvable
        (AVal.InstanceOf 2)) ≠
      some ⟨AVal.Unsolvable, AVal.InstanceOf 2, "__add__"⟩ := by
  refine ⟨by decide, by decide, ?_⟩
  intro h
  simp [Binop.call_binop_on_bindings, Binop.reverse_operator_name,
    Binop.reversable_operators, isAmbiguousOrEmpty, Binop.firstAttempt] at h

/-- C1 (amended): provided the left operand is not an ambiguous or empty
wildcard value, dispatch tries the reflected method first exactly when the
class of the right operand is a subclass of a class in the class variable
of the left operand and overrides or newly defines the reflected method;
otherwise
the forward method is tried first, and it is the only attempt when the
operator has no reflected form. -/
theorem C1_theorem (env : Binop.DispatchEnv) (name : String) (x y : AVal)
    (hx : isAmbiguousOrEmpty x = false) :
    (∀ r, Binop.reverse_operator_name name = some r →
      (Binop.overrides env (env.cls y) (env.cls x) r = true →
        Binop.call_binop_on_bindings env name x y =
          Binop.BinopDispatch.attempts [⟨y, x, r⟩, ⟨x, y, name⟩]) ∧
      (Binop.overrides env (env.cls y) (env.cls x) r = false →
        Binop.call_binop_on_bindings env name x y =
          Binop.BinopDispatch.attempts [⟨x, y, name⟩, ⟨y, x, r⟩])) ∧
    (Binop.reverse_operator_name name = none →
      Binop.call_binop_on_bindings env name x y =
        Binop.BinopDispatch.attempts [⟨x, y, name⟩]) := by
  constructor
  · intro r hr
    constructor
    · intro hov
      simp [Binop.call_binop_on_bindings, hr, hx, hov]
    · intro hov
      simp [Binop.call_binop_on_bindings, hr, hx, hov]
  · intro hr
    simp [Binop.call_binop_on_bindings, hr]

/-- C1 (witness): a concrete hierarchy where class 2 subclasses class 1
and defines the reflected method, so the reflected attempt comes first. -/
theorem C1_witness :
    isAmbiguousOrEmpty (AVal.InstanceOf 1) = false ∧
    Binop.reverse_operator_name "__add__" = some "__radd__" ∧
    Binop.overrides overrideEnv (overrideEnv.cls (AVal.InstanceOf 2))
      (overrideEnv.cls (AVal.InstanceOf 1)) "__radd__" = true ∧
    Binop.call_binop_on_bindings overrideEnv "__add__" (AVal.InstanceOf 1)
      (AVal.InstanceOf 2) =
      Binop.BinopDispatch.attempts
        [⟨AVal.InstanceOf 2, AVal.InstanceOf 1, "__radd__"⟩,
         ⟨AVal.InstanceOf 1, AVal.InstanceOf 2, "__add__"⟩] :=
  ⟨rfl, by decide, by decide,
    ((C1_theorem overrideEnv "__add__" (AVal.InstanceOf 1) (AVal.InstanceOf 2)
      rfl).1 "__radd__" (by decide)).1 (by decide)⟩

/-- C5: when the operator has a reflected form and the left operand is an
ambiguous or empty wildcard value, dispatch short circuits to a result
holding only the unsolvable value, attempting neither method. -/
theorem C5_theorem (env : Binop.DispatchEnv) (name : String) (x y : AVal)
    (r : String) (hr : Binop.reverse_operator_name name = some r)
    (hx : isAmbiguousOrEmpty x = true) :
    Binop.call_binop_on_bindings env name x y =
      Binop.BinopDispatch.shortCircuit [AVal.Unsolvable] := by
  simp [Binop.call_binop_on_bindings, hr, hx]

/-- C5 (witness): concrete instantiation at the add operator with an
unsolvable left operand. -/
theorem C5_witness :
    Binop.reverse_operator_name "__add__" = some "__radd__" ∧
    isAmbiguousOrEmpty AVal.Unsolvable = true ∧
    Binop.call_binop_on_bindings plainEnv "__add__" AVal.Unsolvable
      (AVal.InstanceOf 3) =
      Binop.BinopDispatch.shortCircuit [AVal.Unsolvable] :=
  ⟨by decide, rfl,
    C5_theorem plainEnv "__add__" AVal.Unsolvable (AVal.InstanceOf 3)
      "__radd__" (by decide) rfl⟩

/-! ## Claim C4: the frame runner return variable -/

/-- C4 (counterexample): a frame whose single block raises has a collected
return node, so no wildcard binding is added, and the returned return
variable is empty: the claim that the returned return variable is always
non-empty fails. -/
theorem C4_counterexample :
    (Framerun.run_frame [[Framerun.Instr.raiseErr]] 7).retVar = [] ∧
    (Framerun.run_frame [[Framerun.Instr.raiseErr]] 7).returnNodes = [7] := by
  decide

/-- C4 (amended): if no block of the frame ends with a terminating reason,
so that no return point is collected, the return variable of the frame is
given exactly one binding holding the unsolvable wildcard; when return
points exist the return variable holds exactly the pasted return bindings
and may be empty if every terminating path raised. -/
theorem C4_theorem (blocks : List (List Framerun.Instr)) (entry : Nat)
    (h : (Framerun.run_frame blocks entry).returnNodes = []) :
    (Framerun.run_frame blocks entry).retVar = [AVal.Unsolvable] := by
  unfold Framerun.run_frame at h ⊢
  by_cases he :
      (Framerun.runBlocks blocks (some { node := entry, why := none }) [] []).1 = []
  · rcases runBlocks_empty_nodes blocks (some { node := entry, why := none }) [] [] he with ⟨h1, _⟩
    simp [he, h1]
  · simp [he] at h

/-- C4 (witness): a frame with one block that falls through collects no
return node and receives the single unsolvable binding. -/
theorem C4_witness :
    (Framerun.run_frame [[Framerun.Instr.nop]] 0).returnNodes = [] ∧
    (Framerun.run_frame [[Framerun.Instr.nop]] 0).retVar = [AVal.Unsolvable] :=
  ⟨by decide, C4_theorem [[Framerun.Instr.nop]] 0 (by decide)⟩

/-! ## Claim C9: small integer literals keep their value -/

/-- C9: an integer literal between -1 and MAX_IMPORT_DEPTH converts to a
concrete constant wrapper holding the exact literal with declared class
int; an integer outside that range, and every long, converts to the single
shared generic int instance, discarding the literal. -/
theorem C9_theorem (tbl : Convert.Table) (n : Int) (node : Nat)
    (st : Convert.CState) (f : Nat)
    (hInt : Convert.lookupC st.cache (Convert.PyVal.pyInt n) = none)
    (hLong : Convert.lookupC st.cache (Convert.PyVal.pyLong n) = none) :
    ((-1 ≤ n ∧ n ≤ Convert.MAX_IMPORT_DEPTH) →
      (Convert.constant_to_value (f + 2) tbl (Convert.PyVal.pyInt n) node st).map
          Prod.fst =
        some (Convert.CVal.concrete st.nextId (Convert.Lit.litInt n)
          Convert.PrimClass.intC)) ∧
    (¬(-1 ≤ n ∧ n ≤ Convert.MAX_IMPORT_DEPTH) →
      (Convert.constant_to_value (f + 2) tbl (Convert.PyVal.pyInt n) node st).map
          Prod.fst =
        some (Convert.CVal.primInstance Convert.PrimClass.intC)) ∧
    (Convert.constant_to_value (f + 2) tbl (Convert.PyVal.pyLong n) node st).map
        Prod.fst =
      some (Convert.CVal.primInstance Convert.PrimClass.intC) := by
  refine ⟨?_, ?_, ?_⟩
  · intro hr
    simp [Convert.constant_to_value, Convert.constant_to_value_inner, hInt, hr]
  · intro hr
    simp [Convert.constant_to_value, Convert.constant_to_value_inner, hInt, hr]
  · simp [Convert.constant_to_value, Convert.constant_to_value_inner, hLong]

/-- C9 (witness): the literal 5 keeps its value, 100 and the long 100 fall
back to the shared int instance. -/
theorem C9_witness :
    Convert.lookupC Convert.initState.cache (Convert.PyVal.pyInt 5) = none ∧
    Convert.lookupC Convert.initState.cache (Convert.PyVal.pyInt 100) = none ∧
    (Convert.constant_to_value 12 [] (Convert.PyVal.pyInt 5) 3
        Convert.initState).map Prod.fst =
      some (Convert.CVal.concrete 6 (Convert.Lit.litInt 5)
        Convert.PrimClass.intC) ∧
    (Convert.constant_to_value 12 [] (Convert.PyVal.pyInt 100) 3
        Convert.initState).map Prod.fst =
      some (Convert.CVal.primInstance Convert.PrimClass.intC) ∧
    (Convert.constant_to_value 12 [] (Convert.PyVal.pyLong 100) 3
        Convert.initState).map Prod.fst =
      some (Convert.CVal.primInstance Convert.PrimClass.intC) :=
  ⟨rfl, rfl,
    (C9_theorem [] 5 3 Convert.initState 10 rfl rfl).1 (by decide),
    (C9_theorem [] 100 3 Convert.initState 10 rfl rfl).2.1 (by decide),
    (C9_theorem [] 100 3 Convert.initState 10 rfl rfl).2.2⟩

/-! ## Claim C8: fixed arity tuple conversion -/

/-- C8: converting Tuple of str and int as a class yields a tuple class
recording position 0 as the str class, position 1 as the int class, and
the synthesized homogeneous slot as the union of both; converting it as an
instance yields positionally matching content, the str instance then the
int instance. -/
theorem C8_theorem :
    (Convert.constant_to_value 20 []
        (Convert.PyVal.tupleType ["__builtin__.str", "__builtin__.int"])
        Convert.rootNode Convert.initState).map Prod.fst =
      some (Convert.CVal.tupleClassV 7 [Convert.str_type, Convert.int_type]
        (Convert.CVal.unionV 6 [Convert.str_type, Convert.int_type])) ∧
    (Convert.constant_to_value 20 []
        (Convert.PyVal.asInstanceTuple ["__builtin__.str", "__builtin__.int"])
        Convert.rootNode Convert.initState).map Prod.fst =
      some (Convert.CVal.tupleInstV 6
        [Convert.CVal.primInstance Convert.PrimClass.strC,
         Convert.CVal.primInstance Convert.PrimClass.intC]) :=
  ⟨rfl, rfl⟩

/-! ## Claim C2: cache safety for node dependent values -/

/-- C2: a freshly constructed value is stored back into the constant cache
exactly when its construction never asked for the current node or the node
is the root; when it is not stored, the in-progress sentinel remains, and
a later call for the same constant at any node returns the unsolvable
wildcard from the recursion guard rather than the uncached value. -/
theorem C2_theorem (f : Nat) (tbl : Convert.Table) (pv : Convert.PyVal)
    (node : Nat) (st : Convert.CState) (v : Convert.CVal) (needNode : Bool)
    (st2 : Convert.CState)
    (habs : Convert.lookupC st.cache pv = none)
    (hinner : Convert.constant_to_value_inner f tbl pv node
        { st with cache := Convert.setC st.cache pv none } =
        some (v, needNode, st2)) :
    (needNode = false ∨ node = Convert.rootNode →
      Convert.constant_to_value (f + 1) tbl pv node st =
        some (v, { st2 with cache := Convert.setC st2.cache pv (some v) })) ∧
    (needNode = true → node ≠ Convert.rootNode →
      Convert.constant_to_value (f + 1) tbl pv node st = some (v, st2)) ∧
    (Convert.lookupC st2.cache pv = some none →
      ∀ node2 f2,
        (Convert.constant_to_value (f2 + 1) tbl pv node2 st2).map Prod.fst =
          some Convert.CVal.unsolvableV) := by
  refine ⟨?_, ?_, ?_⟩
  · intro h
    rcases h with h | h
    · simp [Convert.constant_to_value, habs, hinner, h]
    · subst h
      simp [Convert.constant_to_value, habs, hinner]
  · intro hn hnode
    simp [Convert.constant_to_value, habs, hinner, hn, hnode]
  · intro hsent node2 f2
    simp [Convert.constant_to_value, hsent]

/-- C2 (witness): converting the generic instance at node 5 does not store
it; the sentinel remains and a later call at node 9 yields the unsolvable
wildcard, not the previously constructed value. -/
theorem C2_witness :
    Convert.lookupC Convert.initState.cache pvC2 = none ∧
    Convert.constant_to_value 11 [] pvC2 5 Convert.initState =
      some (c2Val, c2St2) ∧
    Convert.lookupC c2St2.cache pvC2 = some none ∧
    (Convert.constant_to_value 3 [] pvC2 9 c2St2).map Prod.fst =
      some Convert.CVal.unsolvableV ∧
    c2Val ≠ Convert.CVal.unsolvableV :=
  ⟨rfl,
   (C2_theorem 10 [] pvC2 5 Convert.initState c2Val true c2St2 rfl rfl).2.1
     rfl (by decide),
   rfl,
   (C2_theorem 10 [] pvC2 5 Convert.initState c2Val true c2St2 rfl rfl).2.2
     rfl 9 2,
   fun h => Convert.CVal.noConfusion h⟩

/-! ## Claim C6: sequence unpacking -/

/-- The binding pass step agrees with the literal classification of a
single binding. -/
theorem partitionStep_eq (n_before : Nat) (n_after : Int)
    (acc : List (List Unpack.UVar) × List Unpack.UData) (b : Unpack.UData) :
    Unpack.partitionStep n_before n_after acc b =
      match Unpack.literalPart n_before n_after b with
      | some o => (acc.1 ++ [o], acc.2)
      | none => (acc.1, acc.2 ++ [b]) := by
  unfold Unpack.partitionStep Unpack.literalPart
  cases hg : Unpack.get_literal_sequence b with
  | none => rfl
  | some tup =>
      by_cases h1 :
          n_after > -1 ∧ (tup.length : Int) ≥ (n_before : Int) + n_after + 1
      · simp [h1]
      · by_cases h2 : (tup.length : Int) = (n_before : Int) + n_after + 1
        · simp only [h1, h2]
          simp
          split <;> rfl
        · simp [h1, h2]

/-- The binding pass splits the bindings into the literal options and the
fallback bindings, in order. -/
theorem partitionBindings_eq (seq : List Unpack.UData) (nb : Nat) (na : Int) :
    Unpack.partitionBindings seq nb na =
      (Unpack.literalOptions seq nb na, Unpack.nontupleOf seq nb na) := by
  suffices h : ∀ acc : List (List Unpack.UVar) × List Unpack.UData,
      seq.foldl (Unpack.partitionStep nb na) acc =
        (acc.1 ++ Unpack.literalOptions seq nb na,
         acc.2 ++ Unpack.nontupleOf seq nb na) by
    simpa using h ([], [])
  induction seq with
  | nil => intro acc; simp [Unpack.literalOptions, Unpack.nontupleOf]
  | cons b rest ih =>
      intro acc
      simp only [List.foldl_cons]
      rw [partitionStep_eq]
      cases hb : Unpack.literalPart nb na b with
      | some o =>
          rw [ih]
          simp [Unpack.literalOptions, Unpack.nontupleOf, hb]
      | none =>
          rw [ih]
          simp [Unpack.literalOptions, Unpack.nontupleOf, hb]

/-- C6 (counterexample): unpacking `a, b, c = x` from a non-literal source
has arity 3, but the engine calls the iteration protocol next method
exactly once, reusing the result for all three positions. -/
theorem C6_counterexample :
    ((3 : Int) + (-1) + 1 = 3) ∧
    (Unpack.unpack_sequence c6Env [Unpack.UData.nonLiteral 0] 3 (-1)).nextCalls
      = 1 ∧
    (Unpack.unpack_sequence c6Env [Unpack.UData.nonLiteral 0] 3 (-1)).nextCalls
      ≠ 3 := by
  refine ⟨by decide, rfl, ?_⟩
  intro h
  rw [show (Unpack.unpack_sequence c6Env [Unpack.UData.nonLiteral 0] 3
    (-1)).nextCalls = 1 from rfl] at h
  exact absurd h (by decide)

/-- C6 (amended): when some binding is not a literal sequence of usable
arity, all such bindings are merged, one iterator is obtained from the
merged variable, next is called on it exactly once, and its result stands
for every position of the fallback option, the starred position wrapped in
a list typed value; the per-position results of all alternatives are
unioned positionally, empty positions defaulting to the empty sentinel.
When every binding is literal, no iterator is used and next is not
called. -/
theorem C6_theorem (env : Unpack.UEnv) (seq : List Unpack.UData) (nb : Nat)
    (na : Int) :
    (Unpack.nontupleOf seq nb na ≠ [] →
      Unpack.unpack_sequence env seq nb na =
        { values :=
            (Unpack.zipStar (Unpack.literalOptions seq nb na ++
                [Unpack.fallbackOption nb na])).map
              (fun col =>
                if Unpack.hasBindings env (Unpack.UVar.contentOf col) then
                  Unpack.UVar.contentOf col
                else Unpack.UVar.emptyVar),
          nextCalls := 1,
          iterUsed := some (Unpack.get_iter env) }) ∧
    (Unpack.nontupleOf seq nb na = [] →
      Unpack.unpack_sequence env seq nb na =
        { values :=
            (Unpack.zipStar (Unpack.literalOptions seq nb na)).map
              (fun col =>
                if Unpack.hasBindings env (Unpack.UVar.contentOf col) then
                  Unpack.UVar.contentOf col
                else Unpack.UVar.emptyVar),
          nextCalls := 0,
          iterUsed := none }) := by
  constructor
  · intro h
    unfold Unpack.unpack_sequence
    rw [partitionBindings_eq]
    simp only [List.isEmpty_iff, h, if_false, List.map_map]
    simp [Unpack.fallbackOption, Function.comp]
  · intro h
    unfold Unpack.unpack_sequence
    rw [partitionBindings_eq]
    simp only [h, List.isEmpty_nil, if_true, List.map_map]
    simp [Function.comp]

/-- C6 (witness): one matching literal pair and one non-literal binding
with arity two; the fallback calls next once and each position unions the
literal element with the next result. -/
theorem C6_witness :
    Unpack.nontupleOf
      [Unpack.UData.litTuple [Unpack.UVar.atom 0, Unpack.UVar.atom 1],
       Unpack.UData.nonLiteral 7] 2 (-1) ≠ [] ∧
    Unpack.unpack_sequence c6Env
      [Unpack.UData.litTuple [Unpack.UVar.atom 0, Unpack.UVar.atom 1],
       Unpack.UData.nonLiteral 7] 2 (-1) =
      { values :=
          [Unpack.UVar.contentOf [Unpack.UVar.atom 0, Unpack.UVar.nextResult],
           Unpack.UVar.contentOf [Unpack.UVar.atom 1, Unpack.UVar.nextResult]],
        nextCalls := 1,
        iterUsed := some Unpack.UVar.iterCall } :=
  ⟨fun h => List.noConfusion h,
   by
    have := (C6_theorem c6Env
      [Unpack.UData.litTuple [Unpack.UVar.atom 0, Unpack.UVar.atom 1],
       Unpack.UData.nonLiteral 7] 2 (-1)).1 (fun h => List.noConfusion h)
    exact this⟩

/-- On rows that are all nonempty, the transpose building block strips the
heads and keeps the tails. -/
theorem heads_of_forall_ne {α : Type} (d : α) :
    ∀ (rows : List (List α)), (∀ r ∈ rows, r ≠ []) →
      Unpack.heads rows =
        some (rows.map (fun r => r.headD d), rows.map List.tail) := by
  intro rows
  induction rows with
  | nil => intro _; rfl
  | cons r rest ih =>
      intro hne
      cases r with
      | nil => exact absurd rfl (hne [] (by simp))
      | cons a as =>
          simp only [Unpack.heads, ih (fun q hq => hne q (by simp [hq]))]
          simp

/-- On nonempty uniform rows the fueled transpose returns, for every index
below the row length, the column of the row entries at that index. -/
theorem zipStarAux_uniform {α : Type} (d : α) :
    ∀ (m : Nat) (rows : List (List α)), rows ≠ [] →
      (∀ r ∈ rows, r.length = m) →
      Unpack.zipStarAux m rows =
        (List.range m).map (fun i => rows.map (fun r => r.getD i d)) := by
  intro m
  induction m with
  | zero => intro rows _ _; rfl
  | succ m ih =>
      intro rows hne hlen
      have hne2 : ∀ r ∈ rows, r ≠ [] := by
        intro r hr h0
        have := hlen r hr
        rw [h0] at this
        simp at this
      simp only [Unpack.zipStarAux, heads_of_forall_ne d rows hne2]
      have htne : rows.map List.tail ≠ [] := by
        intro h0
        exact hne (List.map_eq_nil_iff.mp h0)
      have htlen : ∀ r ∈ rows.map List.tail, r.length = m := by
        intro r hr
        obtain ⟨q, hq, hqe⟩ := List.mem_map.mp hr
        subst hqe
        have := hlen q hq
        simp [List.length_tail, this]
      rw [ih (rows.map List.tail) htne htlen]
      rw [List.range_succ_eq_map]
      simp only [List.map_cons, List.map_map]
      congr 1
      · apply List.map_congr_left
        intro r hr
        cases r with
        | nil => exact absurd rfl (hne2 [] hr)
        | cons a as => rfl
      · apply List.map_congr_left
        intro i _
        simp only [Function.comp]
        apply List.map_congr_left
        intro r hr
        cases r with
        | nil => exact absurd rfl (hne2 [] hr)
        | cons a as => rfl

/-- The transpose of nonempty uniform rows is the list of the columns, in
index order: position i of the result unions exactly the entries of every
row at position i. -/
theorem zipStar_uniform {α : Type} (d : α) (rows : List (List α)) (m : Nat)
    (hne : rows ≠ []) (hlen : ∀ r ∈ rows, r.length = m) :
    Unpack.zipStar rows =
      (List.range m).map (fun i => rows.map (fun r => r.getD i d)) := by
  cases rows with
  | nil => exact absurd rfl hne
  | cons l rest =>
      simp only [Unpack.zipStar]
      rw [hlen l (by simp)]
      exact zipStarAux_uniform d m (l :: rest) hne hlen

/-! ## Claim C10: call_function fallback behavior -/

/-- C10: with fallback enabled, when every callee binding fails with a
failed call error and every callee is named init, the call is handed to
the fake argument retry and returns its unsolvable result variable with
the error reported once; in every other all-fail case the best error is
reported once and a fresh variable holding only the unsolvable wildcard is
returned; and in general the operation never raises and never returns an
empty variable. -/
theorem C10_theorem (node : Nat) (funcs : List Callfn.FuncBinding)
    (hne : funcs ≠ []) :
    ((∀ fb ∈ funcs, Callfn.isFailsCall fb.outcome = true) →
      funcs.all (fun fb => fb.name == "__init__") = true →
      Callfn.call_function node funcs true =
        Callfn.CallResult.ok (Callfn.call_with_fake_args node).1
          (Callfn.call_with_fake_args node).2
          [Callfn.LogEntry.invalidCall (Callfn.callLoop funcs).2.2]) ∧
    ((∀ fb ∈ funcs, Callfn.isFail fb.outcome = true) →
      (Callfn.call_function node funcs true).retOf = [AVal.Unsolvable] ∧
      (Callfn.call_function node funcs true).logOf.length = 1) ∧
    ((Callfn.call_function node funcs true).isOk = true ∧
      (Callfn.call_function node funcs true).retOf ≠ []) := by
  refine ⟨?_, ?_, ?_⟩
  · intro hffc hinit
    have hfail : ∀ fb ∈ funcs, Callfn.isFail fb.outcome = true := by
      intro fb hfb
      have := hffc fb hfb
      cases ho : fb.outcome with
      | succeeds n rs => simp [Callfn.isFailsCall, ho] at this
      | failsCall r => simp [Callfn.isFail]
      | failsKey r k => simp [Callfn.isFail]
    have hnodes : (Callfn.callLoop funcs).2.1 = [] :=
      (callLoopAux_fail funcs ([], [], none) hfail).2
    have hsome : (Callfn.callLoop funcs).2.2.isSome = true := by
      cases funcs with
      | nil => exact absurd rfl hne
      | cons fb rest =>
          exact callLoopAux_err_some fb rest ([], [], none) (hfail fb (by simp))
    have hnotdkm : ∀ r k,
        (Callfn.callLoop funcs).2.2 ≠ some (Callfn.CallErr.dkm r k) :=
      callLoopAux_ffc funcs ([], [], none) hffc (by simp)
    cases herr : (Callfn.callLoop funcs).2.2 with
    | none => rw [herr] at hsome; simp at hsome
    | some e =>
        cases e with
        | dkm r k => exact absurd herr (hnotdkm r k)
        | ffc r =>
            simp [Callfn.call_function, hnodes, herr, hinit]
  · intro hfail
    have hnodes : (Callfn.callLoop funcs).2.1 = [] :=
      (callLoopAux_fail funcs ([], [], none) hfail).2
    cases herr : (Callfn.callLoop funcs).2.2 with
    | none =>
        by_cases hinit : funcs.all (fun fb => fb.name == "__init__") = true
        · constructor <;>
            simp [Callfn.call_function, hnodes, herr, hinit,
              Callfn.call_with_fake_args, Callfn.CallResult.retOf,
              Callfn.CallResult.logOf]
        · constructor <;>
            simp [Callfn.call_function, hnodes, herr, hinit,
              Callfn.CallResult.retOf, Callfn.CallResult.logOf]
    | some e =>
        cases e with
        | dkm r k =>
            constructor <;>
              simp [Callfn.call_function, hnodes, herr,
                Callfn.CallResult.retOf, Callfn.CallResult.logOf]
        | ffc r =>
            by_cases hinit : funcs.all (fun fb => fb.name == "__init__") = true
            · constructor <;>
                simp [Callfn.call_function, hnodes, herr, hinit,
                  Callfn.call_with_fake_args, Callfn.CallResult.retOf,
                  Callfn.CallResult.logOf]
            · constructor <;>
                simp [Callfn.call_function, hnodes, herr, hinit,
                  Callfn.CallResult.retOf, Callfn.CallResult.logOf]
  · by_cases hnodes : (Callfn.callLoop funcs).2.1 = []
    · cases herr : (Callfn.callLoop funcs).2.2 with
      | none =>
          by_cases hinit : funcs.all (fun fb => fb.name == "__init__") = true
          · constructor <;>
              simp [Callfn.call_function, hnodes, herr, hinit,
                Callfn.call_with_fake_args, Callfn.CallResult.retOf,
                Callfn.CallResult.isOk]
          · constructor <;>
              simp [Callfn.call_function, hnodes, herr, hinit,
                Callfn.CallResult.retOf, Callfn.CallResult.isOk]
      | some e =>
          cases e with
          | dkm r k =>
              constructor <;>
                simp [Callfn.call_function, hnodes, herr,
                  Callfn.CallResult.retOf, Callfn.CallResult.isOk]
          | ffc r =>
              by_cases hinit : funcs.all (fun fb => fb.name == "__init__") = true
              · constructor <;>
                  simp [Callfn.call_function, hnodes, herr, hinit,
                    Callfn.call_with_fake_args, Callfn.CallResult.retOf,
                    Callfn.CallResult.isOk]
              · constructor <;>
                  simp [Callfn.call_function, hnodes, herr, hinit,
                    Callfn.CallResult.retOf, Callfn.CallResult.isOk]
    · constructor
      · simp [Callfn.call_function, hnodes, Callfn.CallResult.isOk]
      · by_cases hres : (Callfn.callLoop funcs).1 = []
        · simp [Callfn.call_function, hnodes, hres, Callfn.CallResult.retOf]
        · simp [Callfn.call_function, hnodes, hres, Callfn.CallResult.retOf]

/-! ## Cache evolution lemmas for the conversion engine -/

/-- Writing a key makes it hold the written value. -/
theorem lookupC_setC_self (c : List (Convert.PyVal × Option Convert.CVal))
    (k : Convert.PyVal) (x : Option Convert.CVal) :
    Convert.lookupC (Convert.setC c k x) k = some x := by
  induction c with
  | nil => simp [Convert.setC, Convert.lookupC]
  | cons e rest ih =>
      obtain ⟨a, b⟩ := e
      by_cases h : a = k
      · simp [Convert.setC, Convert.lookupC, h]
      · simp [Convert.setC, Convert.lookupC, h, ih]

/-- Writing a key leaves the other keys unchanged. -/
theorem lookupC_setC_other (c : List (Convert.PyVal × Option Convert.CVal))
    (k k2 : Convert.PyVal) (x : Option Convert.CVal) (h : k2 ≠ k) :
    Convert.lookupC (Convert.setC c k x) k2 = Convert.lookupC c k2 := by
  induction c with
  | nil =>
      simp only [Convert.setC, Convert.lookupC]
      rw [if_neg (Ne.symm h)]
  | cons e rest ih =>
      obtain ⟨a, b⟩ := e
      simp only [Convert.setC]
      by_cases ha : a = k
      · rw [if_pos ha]
        simp only [Convert.lookupC]
        have hne : ¬a = k2 := by
          rw [ha]
          exact Ne.symm h
        rw [if_neg hne, if_neg hne]
      · rw [if_neg ha]
        simp only [Convert.lookupC]
        by_cases ha2 : a = k2
        · rw [if_pos ha2, if_pos ha2]
        · rw [if_neg ha2, if_neg ha2, ih]

/-- Writing an instance key makes it hold the written value. -/
theorem lookupI_setI_self (i : List (String × Convert.CVal)) (n : String)
    (v : Convert.CVal) :
    Convert.lookupI (Convert.setI i n v) n = some v := by
  induction i with
  | nil => simp [Convert.setI, Convert.lookupI]
  | cons e rest ih =>
      obtain ⟨a, b⟩ := e
      by_cases h : a = n
      · simp [Convert.setI, Convert.lookupI, h]
      · simp [Convert.setI, Convert.lookupI, h, ih]

/-- Writing an instance key leaves the other keys unchanged. -/
theorem lookupI_setI_other (i : List (String × Convert.CVal)) (n n2 : String)
    (v : Convert.CVal) (h : n2 ≠ n) :
    Convert.lookupI (Convert.setI i n v) n2 = Convert.lookupI i n2 := by
  induction i with
  | nil =>
      simp only [Convert.setI, Convert.lookupI]
      rw [if_neg (Ne.symm h)]
  | cons e rest ih =>
      obtain ⟨a, b⟩ := e
      simp only [Convert.setI]
      by_cases ha : a = n
      · rw [if_pos ha]
        simp only [Convert.lookupI]
        have hne : ¬a = n2 := by
          rw [ha]
          exact Ne.symm h
        rw [if_neg hne, if_neg hne]
      · rw [if_neg ha]
        simp only [Convert.lookupI]
        by_cases ha2 : a = n2
        · rw [if_pos ha2, if_pos ha2]
        · rw [if_neg ha2, if_neg ha2, ih]

/-- State preservation is reflexive. -/
theorem statePreserved_refl (st : Convert.CState) :
    Convert.statePreserved st st :=
  ⟨fun _ => ⟨fun h => h, fun _ h => h⟩, fun _ _ h => h⟩

/-- State preservation is transitive. -/
theorem statePreserved_trans {s1 s2 s3 : Convert.CState}
    (h1 : Convert.statePreserved s1 s2) (h2 : Convert.statePreserved s2 s3) :
    Convert.statePreserved s1 s3 :=
  ⟨fun k => ⟨fun h => (h2.1 k).1 ((h1.1 k).1 h),
            fun w h => (h2.1 k).2 w ((h1.1 k).2 w h)⟩,
   fun n w h => h2.2 n w (h1.2 n w h)⟩

/-- Allocation preserves both caches. -/
theorem statePreserved_bump (st : Convert.CState) :
    Convert.statePreserved st (Convert.bump st) :=
  ⟨fun _ => ⟨fun h => h, fun _ h => h⟩, fun _ _ h => h⟩

/-- Writing an unsettled key preserves the cache evolution invariant. -/
theorem cachePreserved_setC (c : List (Convert.PyVal × Option Convert.CVal))
    (k0 : Convert.PyVal) (x : Option Convert.CVal)
    (h : ∀ w, Convert.lookupC c k0 ≠ some (some w)) :
    Convert.cachePreserved c (Convert.setC c k0 x) := by
  intro k
  by_cases hk : k = k0
  · subst hk
    constructor
    · intro _
      rw [lookupC_setC_self]
      rfl
    · intro w hw
      exact absurd hw (h w)
  · rw [lookupC_setC_other c k0 k x hk]
    exact ⟨fun h2 => h2, fun _ h2 => h2⟩

/-- A key absent from the base cache may be written after any preserving
evolution without breaking preservation from the base. -/
theorem cachePreserved_setC_absent
    (c0 c1 : List (Convert.PyVal × Option Convert.CVal)) (k0 : Convert.PyVal)
    (x : Option Convert.CVal) (h0 : Convert.lookupC c0 k0 = none)
    (h : Convert.cachePreserved c0 c1) :
    Convert.cachePreserved c0 (Convert.setC c1 k0 x) := by
  intro k
  by_cases hk : k = k0
  · subst hk
    constructor
    · intro hs
      rw [h0] at hs
      simp at hs
    · intro w hw
      rw [h0] at hw
      exact Option.noConfusion hw
  · rw [lookupC_setC_other c1 k0 k x hk]
    exact h k

/-- An instance key absent from the base cache may be written after any
preserving evolution without breaking preservation from the base. -/
theorem icachePreserved_setI_absent (i0 i1 : List (String × Convert.CVal))
    (n0 : String) (v : Convert.CVal) (h0 : Convert.lookupI i0 n0 = none)
    (h : Convert.icachePreserved i0 i1) :
    Convert.icachePreserved i0 (Convert.setI i1 n0 v) := by
  intro n w hw
  by_cases hn : n = n0
  · subst hn
    rw [h0] at hw
    exact Option.noConfusion hw
  · rw [lookupI_setI_other i1 n0 n v hn]
    exact h n w hw

/-- The conversion functions only grow the caches: no entry is removed and
settled entries keep their values, at every fuel. -/
theorem preserveAll : ∀ f : Nat,
    (∀ tbl pv node st v st',
      Convert.constant_to_value f tbl pv node st = some (v, st') →
        Convert.statePreserved st st') ∧
    (∀ tbl pv node st v nn st',
      Convert.constant_to_value_inner f tbl pv node st = some (v, nn, st') →
        Convert.statePreserved st st') ∧
    (∀ tbl l node st vs st',
      Convert.constant_to_value_list f tbl l node st = some (vs, st') →
        Convert.statePreserved st st') := by
  intro f
  induction f with
  | zero =>
      refine ⟨?_, ?_, ?_⟩
      · intro tbl pv node st v st' h
        simp [Convert.constant_to_value] at h
      · intro tbl pv node st v nn st' h
        simp [Convert.constant_to_value_inner] at h
      · intro tbl l node st vs st' h
        simp [Convert.constant_to_value_list] at h
  | succ f ih =>
      obtain ⟨ihc, ihi, ihl⟩ := ih
      refine ⟨?_, ?_, ?_⟩
      · intro tbl pv node st v st' h
        simp only [Convert.constant_to_value] at h
        cases hcache : Convert.lookupC st.cache pv with
        | some o =>
            cases o with
            | some w =>
                rw [hcache] at h
                simp at h
                rw [← h.2]
                exact statePreserved_refl st
            | none =>
                rw [hcache] at h
                simp at h
                rw [← h.2]
                refine ⟨?_, fun n w hw => hw⟩
                exact cachePreserved_setC st.cache pv _
                  (fun w hw => by
                    rw [hcache] at hw
                    exact Option.noConfusion (Option.some.inj hw))
        | none =>
            simp only [hcache] at h
            have hp1 : Convert.statePreserved st
                { st with cache := Convert.setC st.cache pv none } := by
              refine ⟨?_, fun n w hw => hw⟩
              exact cachePreserved_setC st.cache pv none
                (fun w hw => by rw [hcache] at hw; exact Option.noConfusion hw)
            cases hin : Convert.constant_to_value_inner f tbl pv node
                { st with cache := Convert.setC st.cache pv none } with
            | none =>
                simp only [hin] at h
                exact Option.noConfusion h
            | some t =>
                obtain ⟨w, nn, st2⟩ := t
                simp only [hin] at h
                have hp12 : Convert.statePreserved st st2 :=
                  statePreserved_trans hp1 (ihi _ _ _ _ _ _ _ hin)
                by_cases hcond : nn = false ∨ node = Convert.rootNode
                · rw [if_pos hcond] at h
                  simp at h
                  rw [← h.2]
                  exact ⟨cachePreserved_setC_absent st.cache st2.cache pv
                    (some w) hcache hp12.1, hp12.2⟩
                · rw [if_neg hcond] at h
                  simp at h
                  rw [← h.2]
                  exact hp12
      · intro tbl pv node st v nn st' h
        cases pv with
        | pyNone =>
            simp only [Convert.constant_to_value_inner] at h
            simp at h
            rw [← h.2.2]
            exact statePreserved_refl st
        | pyBool b =>
            simp only [Convert.constant_to_value_inner] at h
            simp at h
            rw [← h.2.2]
            exact statePreserved_bump st
        | pyStr s =>
            simp only [Convert.constant_to_value_inner] at h
            simp at h
            rw [← h.2.2]
            exact statePreserved_bump st
        | pyInt n =>
            simp only [Convert.constant_to_value_inner] at h
            split at h <;> simp at h <;> rw [← h.2.2]
            · exact statePreserved_bump st
            · exact statePreserved_refl st
        | pyLong n =>
            simp only [Convert.constant_to_value_inner] at h
            simp at h
            rw [← h.2.2]
            exact statePreserved_refl st
        | classRef name =>
            simp only [Convert.constant_to_value_inner] at h
            cases ht : Convert.lookupT tbl name with
            | none =>
                simp only [ht] at h
                simp at h
                rw [← h.2.2]
                exact statePreserved_refl st
            | some bases =>
                simp only [ht] at h
                cases hlist : Convert.constant_to_value_list f tbl
                    (bases.map Convert.PyVal.classRef) Convert.rootNode st with
                | none =>
                    simp only [hlist] at h
                    exact Option.noConfusion h
                | some t =>
                    obtain ⟨vs1, st1⟩ := t
                    simp only [hlist] at h
                    simp at h
                    rw [← h.2.2]
                    exact statePreserved_trans (ihl _ _ _ _ _ _ hlist)
                      (statePreserved_bump st1)
        | unionType options =>
            simp only [Convert.constant_to_value_inner] at h
            cases hlist : Convert.constant_to_value_list f tbl
                (options.map Convert.PyVal.classRef) Convert.rootNode st with
            | none =>
                simp only [hlist] at h
                exact Option.noConfusion h
            | some t =>
                obtain ⟨vs1, st1⟩ := t
                simp only [hlist] at h
                have hp := ihl _ _ _ _ _ _ hlist
                split at h <;> simp at h <;> rw [← h.2.2]
                · exact statePreserved_trans hp (statePreserved_bump st1)
                · exact hp
        | tupleType params =>
            simp only [Convert.constant_to_value_inner] at h
            cases hbase : Convert.constant_to_value f tbl
                (Convert.PyVal.classRef "__builtin__.tuple") Convert.rootNode
                st with
            | none =>
                simp only [hbase] at h
                exact Option.noConfusion h
            | some t =>
                obtain ⟨baseCls, st1⟩ := t
                simp only [hbase] at h
                have hp1 := ihc _ _ _ _ _ _ hbase
                by_cases hcls : Convert.isClassVal baseCls = true
                · rw [if_pos hcls] at h
                  cases hlist : Convert.constant_to_value_list f tbl
                      (params.map Convert.PyVal.classRef) Convert.rootNode
                      st1 with
                  | none =>
                      simp only [hlist] at h
                      exact Option.noConfusion h
                  | some t2 =>
                      obtain ⟨posVals, st2⟩ := t2
                      simp only [hlist] at h
                      cases hun : Convert.constant_to_value f tbl
                          (Convert.PyVal.unionType params) Convert.rootNode
                          st2 with
                      | none =>
                          simp only [hun] at h
                          exact Option.noConfusion h
                      | some t3 =>
                          obtain ⟨tVal, st3⟩ := t3
                          simp only [hun] at h
                          simp at h
                          rw [← h.2.2]
                          exact statePreserved_trans hp1
                            (statePreserved_trans (ihl _ _ _ _ _ _ hlist)
                              (statePreserved_trans (ihc _ _ _ _ _ _ hun)
                                (statePreserved_bump st3)))
                · rw [if_neg hcls] at h
                  simp at h
                  rw [← h.2.2]
                  exact hp1
        | asInstanceClass name =>
            simp only [Convert.constant_to_value_inner] at h
            cases hli : Convert.lookupI st.icache name with
            | some w =>
                simp only [hli] at h
                simp at h
                rw [← h.2.2]
                exact statePreserved_refl st
            | none =>
                simp only [hli] at h
                by_cases hspec :
                    name = "__builtin__.type" ∨ name = "__builtin__.property"
                · rw [if_pos hspec] at h
                  simp at h
                  rw [← h.2.2]
                  exact ⟨fun k => ⟨fun h2 => h2, fun w h2 => h2⟩,
                    icachePreserved_setI_absent st.icache st.icache name _ hli
                      (fun n w hw => hw)⟩
                · rw [if_neg hspec] at h
                  cases hcv : Convert.constant_to_value f tbl
                      (Convert.PyVal.classRef name) Convert.rootNode st with
                  | none =>
                      simp only [hcv] at h
                      exact Option.noConfusion h
                  | some t =>
                      obtain ⟨u, st1⟩ := t
                      simp only [hcv] at h
                      have hp := ihc _ _ _ _ _ _ hcv
                      simp at h
                      rw [← h.2.2]
                      exact ⟨hp.1,
                        icachePreserved_setI_absent st.icache st1.icache name _
                          hli hp.2⟩
        | asInstanceTuple params =>
            simp only [Convert.constant_to_value_inner] at h
            cases hlist : Convert.constant_to_value_list f tbl
                (params.map Convert.PyVal.asInstanceClass) node st with
            | none =>
                simp only [hlist] at h
                exact Option.noConfusion h
            | some t =>
                obtain ⟨content, st1⟩ := t
                simp only [hlist] at h
                simp at h
                rw [← h.2.2]
                exact statePreserved_trans (ihl _ _ _ _ _ _ hlist)
                  (statePreserved_bump st1)
        | asInstanceGeneric base params =>
            simp only [Convert.constant_to_value_inner] at h
            cases hcv : Convert.constant_to_value f tbl
                (Convert.PyVal.classRef base) Convert.rootNode st with
            | none =>
                simp only [hcv] at h
                exact Option.noConfusion h
            | some t =>
                obtain ⟨u, st1⟩ := t
                simp only [hcv] at h
                cases hlist : Convert.constant_to_value_list f tbl
                    (params.map Convert.PyVal.asInstanceClass)
                    Convert.rootNode st1 with
                | none =>
                    simp only [hlist] at h
                    exact Option.noConfusion h
                | some t2 =>
                    obtain ⟨pvals, st2⟩ := t2
                    simp only [hlist] at h
                    simp at h
                    rw [← h.2.2]
                    exact statePreserved_trans (ihc _ _ _ _ _ _ hcv)
                      (statePreserved_trans (ihl _ _ _ _ _ _ hlist)
                        (statePreserved_bump st2))
      · intro tbl l node st vs st' h
        cases l with
        | nil =>
            simp only [Convert.constant_to_value_list] at h
            simp at h
            rw [← h.2]
            exact statePreserved_refl st
        | cons p ps =>
            simp only [Convert.constant_to_value_list] at h
            cases hcv : Convert.constant_to_value f tbl p node st with
            | none =>
                simp only [hcv] at h
                exact Option.noConfusion h
            | some t =>
                obtain ⟨v1, st1⟩ := t
                simp only [hcv] at h
                cases hrest : Convert.constant_to_value_list f tbl ps node
                    st1 with
                | none =>
                    simp only [hrest] at h
                    exact Option.noConfusion h
                | some t2 =>
                    obtain ⟨vs2, st2⟩ := t2
                    simp only [hrest] at h
                    simp at h
                    rw [← h.2]
                    exact statePreserved_trans (ihc _ _ _ _ _ _ hcv)
                      (ihl _ _ _ _ _ _ hrest)

/-- A successful conversion stays successful, with the same result, when
the fuel grows by one. -/
theorem fuelMonoAll : ∀ f : Nat,
    (∀ tbl pv node st r,
      Convert.constant_to_value f tbl pv node st = some r →
        Convert.constant_to_value (f + 1) tbl pv node st = some r) ∧
    (∀ tbl pv node st r,
      Convert.constant_to_value_inner f tbl pv node st = some r →
        Convert.constant_to_value_inner (f + 1) tbl pv node st = some r) ∧
    (∀ tbl l node st r,
      Convert.constant_to_value_list f tbl l node st = some r →
        Convert.constant_to_value_list (f + 1) tbl l node st = some r) := by
  intro f
  induction f with
  | zero =>
      refine ⟨?_, ?_, ?_⟩
      · intro tbl pv node st r h
        simp [Convert.constant_to_value] at h
      · intro tbl pv node st r h
        simp [Convert.constant_to_value_inner] at h
      · intro tbl l node st r h
        simp [Convert.constant_to_value_list] at h
  | succ f ih =>
      obtain ⟨ihc, ihi, ihl⟩ := ih
      refine ⟨?_, ?_, ?_⟩
      · intro tbl pv node st r h
        simp only [Convert.constant_to_value] at h ⊢
        cases hcache : Convert.lookupC st.cache pv with
        | some o =>
            cases o with
            | some w => simpa [hcache] using (by simpa [hcache] using h)
            | none => simpa [hcache] using (by simpa [hcache] using h)
        | none =>
            simp only [hcache] at h ⊢
            cases hin : Convert.constant_to_value_inner f tbl pv node
                { st with cache := Convert.setC st.cache pv none } with
            | none =>
                simp only [hin] at h
                exact Option.noConfusion h
            | some t =>
                simp only [hin] at h
                simp only [ihi _ _ _ _ _ hin]
                exact h
      · intro tbl pv node st r h
        cases pv with
        | pyNone => exact h
        | pyBool b => exact h
        | pyStr s => exact h
        | pyInt n => exact h
        | pyLong n => exact h
        | classRef name =>
            simp only [Convert.constant_to_value_inner] at h ⊢
            cases ht : Convert.lookupT tbl name with
            | none => simpa [ht] using (by simpa [ht] using h)
            | some bases =>
                simp only [ht] at h ⊢
                cases hlist : Convert.constant_to_value_list f tbl
                    (bases.map Convert.PyVal.classRef) Convert.rootNode st with
                | none => simp only [hlist] at h; exact Option.noConfusion h
                | some t =>
                    simp only [hlist] at h
                    simp only [ihl _ _ _ _ _ hlist]
                    exact h
        | unionType options =>
            simp only [Convert.constant_to_value_inner] at h ⊢
            cases hlist : Convert.constant_to_value_list f tbl
                (options.map Convert.PyVal.classRef) Convert.rootNode st with
            | none => simp only [hlist] at h; exact Option.noConfusion h
            | some t =>
                simp only [hlist] at h
                simp only [ihl _ _ _ _ _ hlist]
                exact h
        | tupleType params =>
            simp only [Convert.constant_to_value_inner] at h ⊢
            cases hbase : Convert.constant_to_value f tbl
                (Convert.PyVal.classRef "__builtin__.tuple") Convert.rootNode
                st with
            | none => simp only [hbase] at h; exact Option.noConfusion h
            | some t =>
                obtain ⟨baseCls, st1⟩ := t
                simp only [hbase] at h
                simp only [ihc _ _ _ _ _ hbase]
                by_cases hcls : Convert.isClassVal baseCls = true
                · rw [if_pos hcls] at h ⊢
                  cases hlist : Convert.constant_to_value_list f tbl
                      (params.map Convert.PyVal.classRef) Convert.rootNode
                      st1 with
                  | none => simp only [hlist] at h; exact Option.noConfusion h
                  | some t2 =>
                      obtain ⟨posVals, st2⟩ := t2
                      simp only [hlist] at h
                      simp only [ihl _ _ _ _ _ hlist]
                      cases hun : Convert.constant_to_value f tbl
                          (Convert.PyVal.unionType params) Convert.rootNode
                          st2 with
                      | none => simp only [hun] at h; exact Option.noConfusion h
                      | some t3 =>
                          simp only [hun] at h
                          simp only [ihc _ _ _ _ _ hun]
                          exact h
                · rw [if_neg hcls] at h ⊢
                  exact h
        | asInstanceClass name =>
            simp only [Convert.constant_to_value_inner] at h ⊢
            cases hli : Convert.lookupI st.icache name with
            | some w => simpa [hli] using (by simpa [hli] using h)
            | none =>
                simp only [hli] at h ⊢
                by_cases hspec :
                    name = "__builtin__.type" ∨ name = "__builtin__.property"
                · rw [if_pos hspec] at h ⊢
                  exact h
                · rw [if_neg hspec] at h ⊢
                  cases hcv : Convert.constant_to_value f tbl
                      (Convert.PyVal.classRef name) Convert.rootNode st with
                  | none => simp only [hcv] at h; exact Option.noConfusion h
                  | some t =>
                      simp only [hcv] at h
                      simp only [ihc _ _ _ _ _ hcv]
                      exact h
        | asInstanceTuple params =>
            simp only [Convert.constant_to_value_inner] at h ⊢
            cases hlist : Convert.constant_to_value_list f tbl
                (params.map Convert.PyVal.asInstanceClass) node st with
            | none => simp only [hlist] at h; exact Option.noConfusion h
            | some t =>
                simp only [hlist] at h
                simp only [ihl _ _ _ _ _ hlist]
                exact h
        | asInstanceGeneric base params =>
            simp only [Convert.constant_to_value_inner] at h ⊢
            cases hcv : Convert.constant_to_value f tbl
                (Convert.PyVal.classRef base) Convert.rootNode st with
            | none => simp only [hcv] at h; exact Option.noConfusion h
            | some t =>
                obtain ⟨u, st1⟩ := t
                simp only [hcv] at h
                simp only [ihc _ _ _ _ _ hcv]
                cases hlist : Convert.constant_to_value_list f tbl
                    (params.map Convert.PyVal.asInstanceClass)
                    Convert.rootNode st1 with
                | none => simp only [hlist] at h; exact Option.noConfusion h
                | some t2 =>
                    simp only [hlist] at h
                    simp only [ihl _ _ _ _ _ hlist]
                    exact h
      · intro tbl l node st r h
        cases l with
        | nil => exact h
        | cons p ps =>
            simp only [Convert.constant_to_value_list] at h ⊢
            cases hcv : Convert.constant_to_value f tbl p node st with
            | none => simp only [hcv] at h; exact Option.noConfusion h
            | some t =>
                obtain ⟨v1, st1⟩ := t
                simp only [hcv] at h
                simp only [ihc _ _ _ _ _ hcv]
                cases hrest : Convert.constant_to_value_list f tbl ps node
                    st1 with
                | none => simp only [hrest] at h; exact Option.noConfusion h
                | some t2 =>
                    simp only [hrest] at h
                    simp only [ihl _ _ _ _ _ hrest]
                    exact h

/-- A successful conversion keeps its result at any larger fuel. -/
theorem constant_to_value_le (tbl : Convert.Table) (pv : Convert.PyVal)
    (node : Nat) (st : Convert.CState) (r : Convert.CVal × Convert.CState)
    (f f' : Nat) (hle : f ≤ f')
    (h : Convert.constant_to_value f tbl pv node st = some r) :
    Convert.constant_to_value f' tbl pv node st = some r := by
  induction f' with
  | zero =>
      have hf : f = 0 := Nat.le_zero.mp hle
      subst hf
      simp [Convert.constant_to_value] at h
  | succ g ih =>
      by_cases hf : f = g + 1
      · subst hf
        exact h
      · have : f ≤ g := Nat.lt_succ_iff.mp (Nat.lt_of_le_of_ne hle hf)
        exact (fuelMonoAll g).1 _ _ _ _ _ (ih this)

/-- A successful list conversion keeps its result at any larger fuel. -/
theorem constant_to_value_list_le (tbl : Convert.Table)
    (l : List Convert.PyVal) (node : Nat) (st : Convert.CState)
    (r : List Convert.CVal × Convert.CState) (f f' : Nat) (hle : f ≤ f')
    (h : Convert.constant_to_value_list f tbl l node st = some r) :
    Convert.constant_to_value_list f' tbl l node st = some r := by
  induction f' with
  | zero =>
      have hf : f = 0 := Nat.le_zero.mp hle
      subst hf
      simp [Convert.constant_to_value_list] at h
  | succ g ih =>
      by_cases hf : f = g + 1
      · subst hf
        exact h
      · have : f ≤ g := Nat.lt_succ_iff.mp (Nat.lt_of_le_of_ne hle hf)
        exact (fuelMonoAll g).2.2 _ _ _ _ _ (ih this)

/-- The inner conversion of a node independent constant never sets the
need node flag. -/
theorem inner_needNode_false (f : Nat) (tbl : Convert.Table)
    (pv : Convert.PyVal) (node : Nat) (st : Convert.CState)
    (v : Convert.CVal) (nn : Bool) (st' : Convert.CState)
    (hfree : Convert.needNodeFree pv = true)
    (h : Convert.constant_to_value_inner f tbl pv node st = some (v, nn, st')) :
    nn = false := by
  cases f with
  | zero => simp [Convert.constant_to_value_inner] at h
  | succ g =>
      cases pv with
      | asInstanceTuple params => simp [Convert.needNodeFree] at hfree
      | asInstanceGeneric base params => simp [Convert.needNodeFree] at hfree
      | pyNone => simp [Convert.constant_to_value_inner] at h; exact h.2.1
      | pyBool b => simp [Convert.constant_to_value_inner] at h; exact h.2.1
      | pyStr s => simp [Convert.constant_to_value_inner] at h; exact h.2.1
      | pyLong n => simp [Convert.constant_to_value_inner] at h; exact h.2.1
      | pyInt n =>
          simp only [Convert.constant_to_value_inner] at h
          split at h <;> (simp at h; exact h.2.1)
      | classRef name =>
          simp only [Convert.constant_to_value_inner] at h
          repeat' split at h
          all_goals first
            | exact Option.noConfusion h
            | (simp at h; exact h.2.1)
      | unionType options =>
          simp only [Convert.constant_to_value_inner] at h
          repeat' split at h
          all_goals first
            | exact Option.noConfusion h
            | (simp at h; exact h.2.1)
      | tupleType params =>
          simp only [Convert.constant_to_value_inner] at h
          repeat' split at h
          all_goals first
            | exact Option.noConfusion h
            | (simp at h; exact h.2.1)
      | asInstanceClass name =>
          simp only [Convert.constant_to_value_inner] at h
          repeat' split at h
          all_goals first
            | exact Option.noConfusion h
            | (simp at h; exact h.2.1)

/-- Converting a node independent constant always leaves the constructed
value settled at its cache key. -/
theorem convert_settles (f : Nat) (tbl : Convert.Table) (pv : Convert.PyVal)
    (node : Nat) (st : Convert.CState) (v : Convert.CVal)
    (st' : Convert.CState) (hfree : Convert.needNodeFree pv = true)
    (h : Convert.constant_to_value f tbl pv node st = some (v, st')) :
    Convert.lookupC st'.cache pv = some (some v) := by
  cases f with
  | zero => simp [Convert.constant_to_value] at h
  | succ g =>
      simp only [Convert.constant_to_value] at h
      cases hcache : Convert.lookupC st.cache pv with
      | some o =>
          cases o with
          | some w =>
              simp only [hcache] at h
              simp at h
              rw [← h.2, ← h.1]
              exact hcache
          | none =>
              simp only [hcache] at h
              simp at h
              rw [← h.2, ← h.1]
              exact lookupC_setC_self st.cache pv (some Convert.CVal.unsolvableV)
      | none =>
          simp only [hcache] at h
          cases hin : Convert.constant_to_value_inner g tbl pv node
              { st with cache := Convert.setC st.cache pv none } with
          | none =>
              simp only [hin] at h
              exact Option.noConfusion h
          | some t =>
              obtain ⟨w, nn, st2⟩ := t
              simp only [hin] at h
              have hnn : nn = false :=
                inner_needNode_false g tbl pv node _ w nn st2 hfree hin
              rw [if_pos (Or.inl hnn)] at h
              simp at h
              rw [← h.2, ← h.1]
              exact lookupC_setC_self st2.cache pv (some w)

/-- A settled cache entry is returned as is. -/
theorem convert_hit (f : Nat) (tbl : Convert.Table) (pv : Convert.PyVal)
    (node : Nat) (st : Convert.CState) (v : Convert.CVal)
    (h : Convert.lookupC st.cache pv = some (some v)) :
    Convert.constant_to_value (f + 1) tbl pv node st = some (v, st) := by
  simp [Convert.constant_to_value, h]

/-- A sequence of conversion calls preserves the caches. -/
theorem convertSeq_preserves (tbl : Convert.Table)
    (calls : List (Nat × Convert.PyVal × Nat)) (st : Convert.CState) :
    Convert.statePreserved st (Convert.convertSeq tbl calls st) := by
  induction calls generalizing st with
  | nil => exact statePreserved_refl st
  | cons c rest ih =>
      obtain ⟨f, pv, node⟩ := c
      simp only [Convert.convertSeq]
      cases hcv : Convert.constant_to_value f tbl pv node st with
      | none => exact ih st
      | some t =>
          exact statePreserved_trans ((preserveAll f).1 _ _ _ _ _ _ hcv)
            (ih t.2)

/-- A cache evolution cannot increase the number of missing names. -/
theorem countMissing_mono (c c' : List (Convert.PyVal × Option Convert.CVal))
    (h : Convert.cachePreserved c c') (l : List String) :
    Convert.countMissing c' l ≤ Convert.countMissing c l := by
  induction l with
  | nil => exact Nat.le_refl 0
  | cons n rest ih =>
      simp only [Convert.countMissing]
      refine Nat.add_le_add ?_ ih
      by_cases hs : (Convert.lookupC c (Convert.PyVal.classRef n)).isSome = true
      · rw [if_pos hs, if_pos ((h (Convert.PyVal.classRef n)).1 hs)]
      · rw [if_neg hs]
        split <;> omega

/-- Writing the sentinel of a missing declared name strictly decreases the
number of missing names. -/
theorem countMissing_setC_lt (c : List (Convert.PyVal × Option Convert.CVal))
    (name : String) (x : Option Convert.CVal) (l : List String)
    (hmem : name ∈ l)
    (habs : Convert.lookupC c (Convert.PyVal.classRef name) = none) :
    Convert.countMissing (Convert.setC c (Convert.PyVal.classRef name) x) l <
      Convert.countMissing c l := by
  have hpres : Convert.cachePreserved c
      (Convert.setC c (Convert.PyVal.classRef name) x) :=
    cachePreserved_setC c (Convert.PyVal.classRef name) x
      (fun w hw => by rw [habs] at hw; exact Option.noConfusion hw)
  induction l with
  | nil => cases hmem
  | cons n rest ih =>
      simp only [Convert.countMissing]
      rcases List.mem_cons.mp hmem with hn | hn
      · subst hn
        rw [if_pos (by rw [lookupC_setC_self]; rfl),
          if_neg (by rw [habs]; simp)]
        have := countMissing_mono c _ hpres rest
        omega
      · have htail := ih hn
        refine Nat.add_lt_add_of_le_of_lt ?_ htail
        by_cases hs : (Convert.lookupC c (Convert.PyVal.classRef n)).isSome = true
        · rw [if_pos hs, if_pos ((hpres (Convert.PyVal.classRef n)).1 hs)]
        · rw [if_neg hs]
          split <;> omega

/-- Every constant has positive size. -/
theorem sz_pos (pv : Convert.PyVal) : 1 ≤ Convert.sz pv := by
  cases pv <;> simp [Convert.sz]

/-- A name found in the declaration table occurs among its keys. -/
theorem lookupT_mem (tbl : Convert.Table) (name : String)
    (bases : List String) (ht : Convert.lookupT tbl name = some bases) :
    name ∈ tbl.map Prod.fst := by
  induction tbl with
  | nil => simp [Convert.lookupT] at ht
  | cons e rest ih =>
      obtain ⟨a, b⟩ := e
      simp only [Convert.lookupT] at ht
      by_cases ha : a = name
      · simp [ha]
      · rw [if_neg ha] at ht
        simp [ih ht]

/-- Composition of per-element termination into list termination. -/
theorem exists_fuel_list (tbl : Convert.Table) (l : List Convert.PyVal)
    (M0 : Nat)
    (H : ∀ p ∈ l, ∀ (node : Nat) (st : Convert.CState),
      Convert.missing tbl st.cache ≤ M0 →
        ∃ f r, Convert.constant_to_value f tbl p node st = some r) :
    ∀ (node : Nat) (st : Convert.CState),
      Convert.missing tbl st.cache ≤ M0 →
        ∃ f r, Convert.constant_to_value_list f tbl l node st = some r := by
  induction l with
  | nil => exact fun node st _ => ⟨1, ([], st), rfl⟩
  | cons p ps ih =>
      intro node st hm
      obtain ⟨f1, r1, h1⟩ := H p (by simp) node st hm
      obtain ⟨v1, st1⟩ := r1
      have hm1 : Convert.missing tbl st1.cache ≤ M0 :=
        le_trans
          (countMissing_mono _ _ ((preserveAll f1).1 _ _ _ _ _ _ h1).1 _) hm
      obtain ⟨f2, r2, h2⟩ :=
        ih (fun q hq => H q (by simp [hq])) node st1 hm1
      obtain ⟨vs2, st2⟩ := r2
      refine ⟨max f1 f2 + 1, (v1 :: vs2, st2), ?_⟩
      simp only [Convert.constant_to_value_list,
        constant_to_value_le tbl p node st (v1, st1) f1 (max f1 f2)
          (le_max_left f1 f2) h1,
        constant_to_value_list_le tbl ps node st1 (vs2, st2) f2 (max f1 f2)
          (le_max_right f1 f2) h2]

/-- Auxiliary termination bound: conversion succeeds for some fuel whenever
the number of missing declared names is below the first bound and the size
of the constant is below the second. -/
theorem exists_fuel_aux : ∀ (m s : Nat) (tbl : Convert.Table)
    (pv : Convert.PyVal) (node : Nat) (st : Convert.CState),
    Convert.missing tbl st.cache < m → Convert.sz pv ≤ s →
    ∃ f r, Convert.constant_to_value f tbl pv node st = some r := by
  intro m
  induction m with
  | zero =>
      intro s tbl pv node st hm
      exact absurd hm (Nat.not_lt_zero _)
  | succ m ihm =>
      intro s
      induction s with
      | zero =>
          intro tbl pv node st hm hs
          have := sz_pos pv
          omega
      | succ s ihs =>
          intro tbl pv node st hm hs
          cases hcache : Convert.lookupC st.cache pv with
          | some o =>
              cases o with
              | some w =>
                  exact ⟨1, (w, st),
                    by simp [Convert.constant_to_value, hcache]⟩
              | none =>
                  exact ⟨1, (Convert.CVal.unsolvableV,
                    { st with
                        cache := Convert.setC st.cache pv
                          (some Convert.CVal.unsolvableV),
                        diags := st.diags ++ [Convert.recursionName pv] }),
                    by simp [Convert.constant_to_value, hcache]⟩
          | none =>
              have hstep : ∀ (fi : Nat) (v : Convert.CVal) (nn : Bool)
                  (st2 : Convert.CState),
                  Convert.constant_to_value_inner fi tbl pv node
                      { st with cache := Convert.setC st.cache pv none } =
                    some (v, nn, st2) →
                  ∃ f r, Convert.constant_to_value f tbl pv node st = some r := by
                intro fi v nn st2 hin
                by_cases hcond : nn = false ∨ node = Convert.rootNode
                · exact ⟨fi + 1,
                    (v, { st2 with
                      cache := Convert.setC st2.cache pv (some v) }),
                    by simp [Convert.constant_to_value, hcache, hin, hcond]⟩
                · exact ⟨fi + 1, (v, st2),
                    by simp [Convert.constant_to_value, hcache, hin, hcond]⟩
              set st1 : Convert.CState :=
                { st with cache := Convert.setC st.cache pv none } with hst1
              have hm1 : Convert.missing tbl st1.cache ≤ m := by
                have := countMissing_mono st.cache st1.cache
                  (cachePreserved_setC st.cache pv none
                    (fun w hw => by rw [hcache] at hw
                                    exact Option.noConfusion hw))
                  (tbl.map Prod.fst)
                have hmle : Convert.missing tbl st.cache ≤ m :=
                  Nat.lt_succ_iff.mp hm
                exact le_trans this hmle
              cases pv with
              | pyNone =>
                  exact hstep 1 Convert.CVal.noneV false st1 rfl
              | pyBool b =>
                  exact hstep 1
                    (Convert.CVal.concrete st1.nextId (Convert.Lit.litBool b)
                      Convert.PrimClass.intC) false (Convert.bump st1) rfl
              | pyStr str =>
                  exact hstep 1
                    (Convert.CVal.concrete st1.nextId (Convert.Lit.litStr str)
                      Convert.PrimClass.strC) false (Convert.bump st1) rfl
              | pyLong n =>
                  exact hstep 1 (Convert.CVal.primInstance Convert.PrimClass.intC)
                    false st1 rfl
              | pyInt n =>
                  by_cases hr : -1 ≤ n ∧ n ≤ Convert.MAX_IMPORT_DEPTH
                  · exact hstep 1
                      (Convert.CVal.concrete st1.nextId (Convert.Lit.litInt n)
                        Convert.PrimClass.intC) false (Convert.bump st1)
                      (by simp [Convert.constant_to_value_inner, hr])
                  · exact hstep 1
                      (Convert.CVal.primInstance Convert.PrimClass.intC) false
                      st1 (by simp [Convert.constant_to_value_inner, hr])
              | classRef name =>
                  cases ht : Convert.lookupT tbl name with
                  | none =>
                      exact hstep 1 Convert.CVal.unsolvableV false st1
                        (by simp [Convert.constant_to_value_inner, ht])
                  | some bases =>
                      have hmem : name ∈ tbl.map Prod.fst :=
                        lookupT_mem tbl name bases ht
                      have hstrict : Convert.missing tbl st1.cache <
                          Convert.missing tbl st.cache :=
                        countMissing_setC_lt st.cache name none
                          (tbl.map Prod.fst) hmem hcache
                      have hm1s : Convert.missing tbl st1.cache < m := by
                        have hmle : Convert.missing tbl st.cache ≤ m :=
                          Nat.lt_succ_iff.mp hm
                        omega
                      obtain ⟨fl, rl, hl⟩ :=
                        exists_fuel_list tbl (bases.map Convert.PyVal.classRef)
                          (Convert.missing tbl st1.cache)
                          (fun p hp node2 stx hmx => by
                            obtain ⟨q, hq, hqe⟩ := List.mem_map.mp hp
                            subst hqe
                            exact ihm 2 tbl (Convert.PyVal.classRef q) node2
                              stx (lt_of_le_of_lt hmx hm1s)
                              (le_refl 2))
                          Convert.rootNode st1 (le_refl _)
                      obtain ⟨vsl, stl⟩ := rl
                      exact hstep (fl + 1) (Convert.CVal.classV stl.nextId name)
                        false (Convert.bump stl)
                        (by simp [Convert.constant_to_value_inner, ht, hl])
              | unionType options =>
                  have hs2 : 2 ≤ s := by
                    simp [Convert.sz] at hs
                    omega
                  obtain ⟨fl, rl, hl⟩ :=
                    exists_fuel_list tbl (options.map Convert.PyVal.classRef) m
                      (fun p hp node2 stx hmx => by
                        obtain ⟨q, hq, hqe⟩ := List.mem_map.mp hp
                        subst hqe
                        exact ihs tbl (Convert.PyVal.classRef q) node2 stx
                          (Nat.lt_succ_of_le hmx)
                          (by simp [Convert.sz]; omega))
                      Convert.rootNode st1 hm1
                  obtain ⟨vsl, stl⟩ := rl
                  by_cases hlen : vsl.length > 1
                  · exact hstep (fl + 1)
                      (Convert.CVal.unionV stl.nextId vsl) false
                      (Convert.bump stl)
                      (by simp [Convert.constant_to_value_inner, hl, hlen])
                  · exact hstep (fl + 1) (vsl.headD Convert.CVal.unsolvableV)
                      false stl
                      (by simp [Convert.constant_to_value_inner, hl, hlen])
              | tupleType params =>
                  have hs3 : 3 ≤ s := by
                    simp [Convert.sz] at hs
                    omega
                  obtain ⟨fb, rb, hb⟩ :=
                    ihs tbl (Convert.PyVal.classRef "__builtin__.tuple")
                      Convert.rootNode st1 (Nat.lt_succ_of_le hm1)
                      (by simp [Convert.sz]; omega)
                  obtain ⟨baseCls, stb⟩ := rb
                  have hmb : Convert.missing tbl stb.cache ≤ m :=
                    le_trans
                      (countMissing_mono _ _
                        ((preserveAll fb).1 _ _ _ _ _ _ hb).1 _) hm1
                  by_cases hcls : Convert.isClassVal baseCls = true
                  · obtain ⟨fl, rl, hl⟩ :=
                      exists_fuel_list tbl (params.map Convert.PyVal.classRef)
                        m
                        (fun p hp node2 stx hmx => by
                          obtain ⟨q, hq, hqe⟩ := List.mem_map.mp hp
                          subst hqe
                          exact ihs tbl (Convert.PyVal.classRef q) node2 stx
                            (Nat.lt_succ_of_le hmx)
                            (by simp [Convert.sz]; omega))
                        Convert.rootNode stb hmb
                    obtain ⟨vsl, stl⟩ := rl
                    have hml : Convert.missing tbl stl.cache ≤ m :=
                      le_trans
                        (countMissing_mono _ _
                          ((preserveAll fl).2.2 _ _ _ _ _ _ hl).1 _) hmb
                    obtain ⟨fu, ru, hu⟩ :=
                      ihs tbl (Convert.PyVal.unionType params)
                        Convert.rootNode stl (Nat.lt_succ_of_le hml)
                        (by simp [Convert.sz]; omega)
                    obtain ⟨tVal, stu⟩ := ru
                    refine hstep (max fb (max fl fu) + 1)
                      (Convert.CVal.tupleClassV stu.nextId vsl tVal) false
                      (Convert.bump stu) ?_
                    have hb2 := constant_to_value_le tbl
                      (Convert.PyVal.classRef "__builtin__.tuple")
                      Convert.rootNode st1 (baseCls, stb) fb
                      (max fb (max fl fu)) (le_max_left _ _) hb
                    have hl2 := constant_to_value_list_le tbl
                      (params.map Convert.PyVal.classRef) Convert.rootNode
                      stb (vsl, stl) fl (max fb (max fl fu))
                      (le_trans (le_max_left _ _) (le_max_right _ _)) hl
                    have hu2 := constant_to_value_le tbl
                      (Convert.PyVal.unionType params) Convert.rootNode stl
                      (tVal, stu) fu (max fb (max fl fu))
                      (le_trans (le_max_right _ _) (le_max_right _ _)) hu
                    simp [Convert.constant_to_value_inner, hb2, hl2, hu2, hcls]
                  · refine hstep (fb + 1) Convert.CVal.unsolvableV false stb ?_
                    simp [Convert.constant_to_value_inner, hb, hcls]
              | asInstanceClass name =>
                  cases hli : Convert.lookupI st1.icache name with
                  | some w =>
                      exact hstep 1 w false st1
                        (by simp [Convert.constant_to_value_inner, hli])
                  | none =>
                      by_cases hspec : name = "__builtin__.type" ∨
                          name = "__builtin__.property"
                      · exact hstep 1 (Convert.CVal.unknownV st1.nextId) false
                          { Convert.bump st1 with
                            icache := Convert.setI st1.icache name
                              (Convert.CVal.unknownV st1.nextId) }
                          (by simp [Convert.constant_to_value_inner, hli, hspec])
                      · have hs3 : 3 ≤ s := by
                          simp [Convert.sz] at hs
                          omega
                        obtain ⟨fc, rc, hc⟩ :=
                          ihs tbl (Convert.PyVal.classRef name)
                            Convert.rootNode st1 (Nat.lt_succ_of_le hm1)
                            (by simp [Convert.sz]; omega)
                        obtain ⟨u, stc⟩ := rc
                        refine hstep (fc + 1)
                          (Convert.CVal.instanceV stc.nextId name) false
                          { Convert.bump stc with
                            icache := Convert.setI stc.icache name
                              (Convert.CVal.instanceV stc.nextId name) } ?_
                        simp only [Convert.constant_to_value_inner]
                        rw [hli]
                        rw [if_neg hspec, hc]
              | asInstanceTuple params =>
                  have hs4 : 4 ≤ s := by
                    simp [Convert.sz] at hs
                    omega
                  obtain ⟨fl, rl, hl⟩ :=
                    exists_fuel_list tbl
                      (params.map Convert.PyVal.asInstanceClass) m
                      (fun p hp node2 stx hmx => by
                        obtain ⟨q, hq, hqe⟩ := List.mem_map.mp hp
                        subst hqe
                        exact ihs tbl (Convert.PyVal.asInstanceClass q) node2
                          stx (Nat.lt_succ_of_le hmx)
                          (by simp [Convert.sz]; omega))
                      node st1 hm1
                  obtain ⟨content, stl⟩ := rl
                  exact hstep (fl + 1)
                    (Convert.CVal.tupleInstV stl.nextId content)
                    (!params.isEmpty) (Convert.bump stl)
                    (by simp [Convert.constant_to_value_inner, hl])
              | asInstanceGeneric base params =>
                  have hs4 : 4 ≤ s := by
                    simp [Convert.sz] at hs
                    omega
                  obtain ⟨fc, rc, hc⟩ :=
                    ihs tbl (Convert.PyVal.classRef base) Convert.rootNode st1
                      (Nat.lt_succ_of_le hm1) (by simp [Convert.sz]; omega)
                  obtain ⟨u, stc⟩ := rc
                  have hmc : Convert.missing tbl stc.cache ≤ m :=
                    le_trans
                      (countMissing_mono _ _
                        ((preserveAll fc).1 _ _ _ _ _ _ hc).1 _) hm1
                  obtain ⟨fl, rl, hl⟩ :=
                    exists_fuel_list tbl
                      (params.map Convert.PyVal.asInstanceClass) m
                      (fun p hp node2 stx hmx => by
                        obtain ⟨q, hq, hqe⟩ := List.mem_map.mp hp
                        subst hqe
                        exact ihs tbl (Convert.PyVal.asInstanceClass q) node2
                          stx (Nat.lt_succ_of_le hmx)
                          (by simp [Convert.sz]; omega))
                      Convert.rootNode stc hmc
                  obtain ⟨pvals, stl⟩ := rl
                  refine hstep (max fc fl + 1)
                    (Convert.CVal.genericInstV stl.nextId base node pvals)
                    (!params.isEmpty) (Convert.bump stl) ?_
                  have hc2 := constant_to_value_le tbl
                    (Convert.PyVal.classRef base) Convert.rootNode st1
                    (u, stc) fc (max fc fl) (le_max_left _ _) hc
                  have hl2 := constant_to_value_list_le tbl
                    (params.map Convert.PyVal.asInstanceClass)
                    Convert.rootNode stc (pvals, stl) fl (max fc fl)
                    (le_max_right _ _) hl
                  simp [Convert.constant_to_value_inner, hc2, hl2]

/-- Conversion terminates: for every constant, node and state there is a
fuel at which it succeeds. -/
theorem exists_fuel (tbl : Convert.Table) (pv : Convert.PyVal) (node : Nat)
    (st : Convert.CState) :
    ∃ f r, Convert.constant_to_value f tbl pv node st = some r :=
  exists_fuel_aux (Convert.missing tbl st.cache + 1) (Convert.sz pv) tbl pv
    node st (Nat.lt_succ_self _) (le_refl _)

/-- Two conversions of the same node independent constant, with any
conversions in between, return the same value instance. -/
theorem convert_identity (tbl : Convert.Table) (pv : Convert.PyVal)
    (hfree : Convert.needNodeFree pv = true) :
    ∀ (f1 f2 node1 node2 : Nat) (st : Convert.CState)
      (calls : List (Nat × Convert.PyVal × Nat)) (v1 v2 : Convert.CVal)
      (st1 st2 : Convert.CState),
      Convert.constant_to_value f1 tbl pv node1 st = some (v1, st1) →
      Convert.constant_to_value f2 tbl pv node2
        (Convert.convertSeq tbl calls st1) = some (v2, st2) →
      v2 = v1 := by
  intro f1 f2 node1 node2 st calls v1 v2 st1 st2 h1 h2
  have hset : Convert.lookupC st1.cache pv = some (some v1) :=
    convert_settles f1 tbl pv node1 st v1 st1 hfree h1
  have hmid : Convert.lookupC (Convert.convertSeq tbl calls st1).cache pv =
      some (some v1) :=
    ((convertSeq_preserves tbl calls st1).1 pv).2 v1 hset
  cases f2 with
  | zero => simp [Convert.constant_to_value] at h2
  | succ g =>
      rw [convert_hit g tbl pv node2 _ v1 hmid] at h2
      simp at h2
      exact h2.1.symm

/-! ## Claim C3: recursion guard and termination -/

/-- C3: conversion of any constant terminates with some fuel; and a
conversion that re-enters a cache key while its in-progress sentinel is in
place emits a recursion diagnostic and yields the unsolvable wildcard,
settling the key to unsolvable. -/
theorem C3_theorem (tbl : Convert.Table) (pv : Convert.PyVal) (node : Nat)
    (st : Convert.CState) :
    (∃ f r, Convert.constant_to_value f tbl pv node st = some r) ∧
    (Convert.lookupC st.cache pv = some none →
      ∀ f, Convert.constant_to_value (f + 1) tbl pv node st =
        some (Convert.CVal.unsolvableV,
          { st with
              cache := Convert.setC st.cache pv
                (some Convert.CVal.unsolvableV),
              diags := st.diags ++ [Convert.recursionName pv] })) :=
  ⟨exists_fuel tbl pv node st,
   fun hsent f => by simp [Convert.constant_to_value, hsent]⟩

/-- C3 (witness): re-entering class A while its sentinel is stored yields
the unsolvable wildcard with the diagnostic; a full conversion of the
cyclic pair of classes A and B terminates and emits the recursion
diagnostic for A. -/
theorem C3_witness :
    Convert.lookupC c3SentState.cache (Convert.PyVal.classRef "A") =
      some none ∧
    Convert.constant_to_value 3 Convert.tblC3 (Convert.PyVal.classRef "A") 0
        c3SentState =
      some (Convert.CVal.unsolvableV,
        { c3SentState with
            cache := Convert.setC c3SentState.cache
              (Convert.PyVal.classRef "A") (some Convert.CVal.unsolvableV),
            diags := ["A"] }) ∧
    (Convert.constant_to_value 9 Convert.tblC3 (Convert.PyVal.classRef "A") 0
        Convert.emptyState).map (fun r => r.2.diags) = some ["A"] :=
  ⟨rfl,
   (C3_theorem Convert.tblC3 (Convert.PyVal.classRef "A") 0 c3SentState).2
     rfl 2,
   rfl⟩

/-! ## Claim C7: identity of converted singletons -/

/-- C7: converting the None literal at any two nodes, with any conversions
in between, yields the identical value, and from a fresh key it is the
none singleton; converting the literal True always yields the identical
instance; converting the instance of a class always yields the identical
instance, and with the per-class instance cache holding an instance, the
conversion returns exactly that cached instance, so at most one instance
exists per class. -/
theorem C7_theorem (tbl : Convert.Table) :
    (∀ (f1 f2 node1 node2 : Nat) (st : Convert.CState)
        (calls : List (Nat × Convert.PyVal × Nat)) (v1 v2 : Convert.CVal)
        (st1 st2 : Convert.CState),
      Convert.constant_to_value f1 tbl Convert.PyVal.pyNone node1 st =
        some (v1, st1) →
      Convert.constant_to_value f2 tbl Convert.PyVal.pyNone node2
        (Convert.convertSeq tbl calls st1) = some (v2, st2) →
      v2 = v1) ∧
    (∀ (f1 f2 node1 node2 : Nat) (st : Convert.CState)
        (calls : List (Nat × Convert.PyVal × Nat)) (v1 v2 : Convert.CVal)
        (st1 st2 : Convert.CState),
      Convert.constant_to_value f1 tbl (Convert.PyVal.pyBool true) node1 st =
        some (v1, st1) →
      Convert.constant_to_value f2 tbl (Convert.PyVal.pyBool true) node2
        (Convert.convertSeq tbl calls st1) = some (v2, st2) →
      v2 = v1) ∧
    (∀ (name : String) (f1 f2 node1 node2 : Nat) (st : Convert.CState)
        (calls : List (Nat × Convert.PyVal × Nat)) (v1 v2 : Convert.CVal)
        (st1 st2 : Convert.CState),
      Convert.constant_to_value f1 tbl (Convert.PyVal.asInstanceClass name)
        node1 st = some (v1, st1) →
      Convert.constant_to_value f2 tbl (Convert.PyVal.asInstanceClass name)
        node2 (Convert.convertSeq tbl calls st1) = some (v2, st2) →
      v2 = v1) ∧
    (∀ (f node : Nat) (st : Convert.CState),
      Convert.lookupC st.cache Convert.PyVal.pyNone = none →
      (Convert.constant_to_value (f + 2) tbl Convert.PyVal.pyNone node
          st).map Prod.fst = some Convert.CVal.noneV) ∧
    (∀ (f node : Nat) (st : Convert.CState) (name : String)
        (w : Convert.CVal),
      Convert.lookupC st.cache (Convert.PyVal.asInstanceClass name) = none →
      Convert.lookupI st.icache name = some w →
      (Convert.constant_to_value (f + 2) tbl
          (Convert.PyVal.asInstanceClass name) node st).map Prod.fst =
        some w) := by
  refine ⟨convert_identity tbl Convert.PyVal.pyNone rfl,
    convert_identity tbl (Convert.PyVal.pyBool true) rfl,
    fun name => convert_identity tbl (Convert.PyVal.asInstanceClass name) rfl,
    ?_, ?_⟩
  · intro f node st h
    simp [Convert.constant_to_value, Convert.constant_to_value_inner, h]
  · intro f node st name w h hli
    simp [Convert.constant_to_value, Convert.constant_to_value_inner, h, hli]

/-- C7 (witness): the None literal converted at nodes 2 and 7 with an
intervening integer conversion yields the none singleton both times; the
literal True yields the same allocated instance (id 6) both times; the str
instance is the single cached primitive instance both times. -/
theorem C7_witness :
    Convert.constant_to_value 3 [] Convert.PyVal.pyNone 2 Convert.initState =
      some (Convert.CVal.noneV, c7St1) ∧
    Convert.convertSeq [] c7Calls c7St1 = c7Mid ∧
    Convert.constant_to_value 3 [] Convert.PyVal.pyNone 7 c7Mid =
      some (Convert.CVal.noneV, c7Mid) ∧
    Convert.CVal.noneV = Convert.CVal.noneV ∧
    Convert.constant_to_value 3 [] (Convert.PyVal.pyBool true) 2
        Convert.initState = some (c7TrueVal, c7TSt1) ∧
    Convert.constant_to_value 3 [] (Convert.PyVal.pyBool true) 9 c7TSt1 =
      some (c7TrueVal, c7TSt1) ∧
    c7TrueVal = c7TrueVal ∧
    Convert.constant_to_value 3 []
        (Convert.PyVal.asInstanceClass "__builtin__.str") 2
        Convert.initState =
      some (Convert.CVal.primInstance Convert.PrimClass.strC, c7ISt1) ∧
    (Convert.constant_to_value 4 []
        (Convert.PyVal.asInstanceClass "__builtin__.str") 5
        Convert.initState).map Prod.fst =
      some (Convert.CVal.primInstance Convert.PrimClass.strC) ∧
    (Convert.constant_to_value 4 [] Convert.PyVal.pyNone 5
        Convert.initState).map Prod.fst = some Convert.CVal.noneV :=
  ⟨rfl, rfl, rfl,
   (C7_theorem []).1 3 3 2 7 Convert.initState c7Calls Convert.CVal.noneV
     Convert.CVal.noneV c7St1 c7Mid rfl rfl,
   rfl, rfl,
   (C7_theorem []).2.1 3 3 2 9 Convert.initState [] c7TrueVal c7TrueVal
     c7TSt1 c7TSt1 rfl rfl,
   rfl,
   (C7_theorem []).2.2.2.2 2 5 Convert.initState "__builtin__.str"
     (Convert.CVal.primInstance Convert.PrimClass.strC) rfl rfl,
   (C7_theorem []).2.2.2.1 2 5 Convert.initState rfl⟩

/-- C10 (witness): one callee binding named init failing with a failed
call error; the call returns the unsolvable variable of the fake argument
retry and reports the error once. -/
theorem C10_witness :
    (∀ fb ∈ ([⟨"__init__", Callfn.CallOutcome.failsCall 1⟩] :
        List Callfn.FuncBinding), Callfn.isFailsCall fb.outcome = true) ∧
    Callfn.call_function 4
        [⟨"__init__", Callfn.CallOutcome.failsCall 1⟩] true =
      Callfn.CallResult.ok 4 [AVal.Unsolvable]
        [Callfn.LogEntry.invalidCall (some (Callfn.CallErr.ffc 1))] :=
  ⟨by decide,
    (C10_theorem 4 [⟨"__init__", Callfn.CallOutcome.failsCall 1⟩]
      (by decide)).1 (by decide) (by decide)⟩

end Pytype
